import Mathlib

/-!
Shallow embedding of the My-City board game core (Angular/TypeScript sources)
and proofs about its scoring engine, placement rule engine, turn state
machine and session state.

Conventions of the embedding:
* TypeScript `null` cells become `Option`; a `Cell` is `Option Buildings`.
* JavaScript array indexing `a[i]` (which yields `undefined` out of range)
  is modelled by `jsIndex : List α → Int → Option α`.
* String cell keys `"r-c"` are modelled by coordinate pairs (the string
  encoding of integer pairs is injective, so nothing is lost).
* The thrown `InvalidDieFace` error of `getBuildingFromDice` is modelled by
  an `Option` result (`none` = throw).
* The BFS `while` loop of `findConnectedGroup` is modelled with explicit
  fuel; the fuel `4 * rows * cols + 1` dominates the number of loop
  iterations (each iteration pops one queue entry and at most
  `4 * rows * cols + 1` entries are ever enqueued).
-/

/-- Building taxonomy, from `buildings.model.ts` (`enum Buildings`). -/
inductive Buildings where
  | HOUSE
  | LAKE
  | FOREST
  | SQUARE
deriving DecidableEq, Repr

/-- A board cell: empty (`none`) or holding one building (`board.model.ts`). -/
def Cell : Type := Option Buildings

instance : DecidableEq Cell := inferInstanceAs (DecidableEq (Option Buildings))

/-- The board as a grid of cells (`board.model.ts`, `type Board = Cell[][]`). -/
def Board : Type := List (List Cell)

instance : DecidableEq Board :=
  inferInstanceAs (DecidableEq (List (List (Option Buildings))))

/-- A coordinate pair.  TypeScript uses plain numbers (which may go negative
in the BFS frontier), so coordinates are integers. -/
def Pos : Type := Int × Int

instance : DecidableEq Pos := inferInstanceAs (DecidableEq (Int × Int))

/-- JavaScript array indexing: `l[i]` is `undefined` (here `none`) when `i`
is negative or past the end of the array. -/
def jsIndex {α : Type} (l : List α) (i : Int) : Option α :=
  if i < 0 then none else l.get? i.toNat

/-- Reading a board cell `board[row][col]`.  Out-of-range reads yield `none`
(treated as empty); in the embedded algorithms every dereference is guarded
by a bounds check against the configured dimensions, so this coincides with
the TypeScript behaviour on boards matching the configuration. -/
def getCell (board : Board) (p : Pos) : Cell :=
  ((jsIndex board p.1).bind fun rowL => jsIndex rowL p.2).getD none

/-- Game configuration (`game-config.model.ts`).  The presentation-only
label fields are omitted. -/
structure GameConfig where
  rows : Nat
  cols : Nat
  maxRounds : Nat
  bonusStageRounds : List Nat
  pointMatrix : List (List Int)

/-- `DEFAULT_GAME_CONFIG` from `game-config.model.ts`. -/
def defaultGameConfig : GameConfig where
  rows := 5
  cols := 6
  maxRounds := 9
  bonusStageRounds := [3, 6, 9]
  pointMatrix :=
    [[3, 0, 2, 2, 0, 3],
     [0, 1, 0, 0, 1, 0],
     [2, 0, 1, 1, 0, 2],
     [0, 1, 0, 0, 1, 0],
     [3, 0, 2, 2, 0, 3]]

/-- Die-face-to-building lookup from `buildings.model.ts`
(`getBuildingFromDice`).  The `default: throw new Error(...)` branch
(`InvalidDieFace`) is modelled by `none`. -/
def getBuildingFromDice (diceValue : Int) : Option Buildings :=
  if diceValue = 1 ∨ diceValue = 4 then some Buildings.HOUSE
  else if diceValue = 3 ∨ diceValue = 6 then some Buildings.LAKE
  else if diceValue = 2 ∨ diceValue = 5 then some Buildings.FOREST
  else none

/-- The `sumToRowMap` object literal of `getTargetRowFromDiceSum`
(`scoring.service.ts`); absent keys give `-1` (the `?? -1`). -/
def sumToRowMap (diceSum : Int) : Int :=
  if diceSum = 3 ∨ diceSum = 4 then 0
  else if diceSum = 5 ∨ diceSum = 6 then 1
  else if diceSum = 7 then 2
  else if diceSum = 8 ∨ diceSum = 9 then 3
  else if diceSum = 10 ∨ diceSum = 11 then 4
  else -1

/-- `getTargetRowFromDiceSum` from `scoring.service.ts`: sums 2 and 12 use
the player-selected row when present and `-1` ("none") otherwise; the
`config` parameter is unused by the source body but kept for fidelity. -/
def getTargetRowFromDiceSum (diceSum : Int) (config : GameConfig)
    (selectedRow : Option Int) : Int :=
  if diceSum = 2 ∨ diceSum = 12 then
    match selectedRow with
    | some r => r
    | none => -1
  else sumToRowMap diceSum

/-- `getCellPoints` from `scoring.service.ts`:
`config.pointMatrix[row]?.[col] || 0` (missing row or column entry, and the
falsy value `0`, all yield `0`). -/
def getCellPoints (row col : Int) (config : GameConfig) : Int :=
  ((jsIndex config.pointMatrix row).bind fun rowL => jsIndex rowL col).getD 0

/-- The four orthogonal neighbours pushed by `findConnectedGroup` and
inspected by `isPlazaAdjacentToAllThree` (up, down, left, right). -/
def nbrs (p : Pos) : List Pos :=
  [(p.1 - 1, p.2), (p.1 + 1, p.2), (p.1, p.2 - 1), (p.1, p.2 + 1)]

/-- Loop body of the BFS in `findConnectedGroup` (`scoring.service.ts`).
State: remaining fuel, queue, `visitedLocal`, `visitedGlobal`, the
accumulated `group`.  Returns the group together with the updated global
visited set (which the TypeScript mutates in place). -/
def findConnectedGroupGo (board : Board) (buildingType : Buildings)
    (rows cols : Nat) :
    Nat → List Pos → List Pos → List Pos → List Pos → List Pos × List Pos
  | 0, _, _, visitedGlobal, group => (group, visitedGlobal)
  | _ + 1, [], _, visitedGlobal, group => (group, visitedGlobal)
  | fuel + 1, p :: rest, visitedLocal, visitedGlobal, group =>
    if p ∈ visitedLocal ∨ p ∈ visitedGlobal then
      findConnectedGroupGo board buildingType rows cols fuel rest
        visitedLocal visitedGlobal group
    else if p.1 < 0 ∨ (rows : Int) ≤ p.1 ∨ p.2 < 0 ∨ (cols : Int) ≤ p.2 then
      findConnectedGroupGo board buildingType rows cols fuel rest
        visitedLocal visitedGlobal group
    else if getCell board p ≠ some buildingType then
      findConnectedGroupGo board buildingType rows cols fuel rest
        visitedLocal visitedGlobal group
    else
      findConnectedGroupGo board buildingType rows cols fuel (rest ++ nbrs p)
        (p :: visitedLocal) (p :: visitedGlobal) (group ++ [p])

/-- `findConnectedGroup` from `scoring.service.ts`: BFS flood fill over
4-directional neighbours restricted to `buildingType`, honouring and
extending the global visited set. -/
def findConnectedGroup (board : Board) (startRow startCol : Int)
    (buildingType : Buildings) (visitedGlobal : List Pos)
    (config : GameConfig) : List Pos × List Pos :=
  findConnectedGroupGo board buildingType config.rows config.cols
    (4 * config.rows * config.cols + 1) [(startRow, startCol)] []
    visitedGlobal []

/-- Row-major enumeration of the board cells, as traversed by the
`for (row) for (col)` loops of the scoring service. -/
def gridList (rows cols : Nat) : List Pos :=
  ((List.range rows) ×ˢ (List.range cols)).map
    fun rc => ((rc.1 : Int), (rc.2 : Int))

/-- The double loop of `calculateStreetScore`: for each unvisited,
non-empty, non-SQUARE cell discover its connected group and add the
group's point total when some member lies on the target row. -/
def calculateStreetScoreGo (board : Board) (config : GameConfig)
    (targetRow : Int) :
    List Pos → List Pos → Int → Int
  | [], _, totalScore => totalScore
  | p :: cells, visitedCells, totalScore =>
    if p ∈ visitedCells then
      calculateStreetScoreGo board config targetRow cells visitedCells
        totalScore
    else
      match getCell board p with
      | none =>
        calculateStreetScoreGo board config targetRow cells visitedCells
          totalScore
      | some building =>
        if building = Buildings.SQUARE then
          calculateStreetScoreGo board config targetRow cells visitedCells
            totalScore
        else
          let res := findConnectedGroup board p.1 p.2 building visitedCells
            config
          if res.1.any fun q => decide (q.1 = targetRow) then
            calculateStreetScoreGo board config targetRow cells res.2
              (totalScore +
                (res.1.map fun q => getCellPoints q.1 q.2 config).sum)
          else
            calculateStreetScoreGo board config targetRow cells res.2
              totalScore

/-- `calculateStreetScore` from `scoring.service.ts`. -/
def calculateStreetScore (diceSum : Int) (board : Board)
    (config : GameConfig) (selectedRow : Option Int) : Int :=
  let targetRow := getTargetRowFromDiceSum diceSum config selectedRow
  if targetRow = -1 then 0
  else
    calculateStreetScoreGo board config targetRow
      (gridList config.rows config.cols) [] 0

/-- JavaScript `Set.add` on a list model: append when absent. -/
def setAdd {α : Type} [DecidableEq α] (s : List α) (x : α) : List α :=
  if x ∈ s then s else s ++ [x]

/-- `isPlazaAdjacentToAllThree` from `scoring.service.ts`: collect the
buildings of the in-bounds orthogonal neighbours (ignoring empty and
SQUARE cells) into a set and test for HOUSE, FOREST and LAKE. -/
def isPlazaAdjacentToAllThree (board : Board) (row col : Int)
    (config : GameConfig) : Bool :=
  let neighbors := (nbrs (row, col)).foldl
    (fun acc q =>
      if 0 ≤ q.1 ∧ q.1 < (config.rows : Int) ∧ 0 ≤ q.2 ∧
          q.2 < (config.cols : Int) then
        match getCell board q with
        | some b => if b = Buildings.SQUARE then acc else setAdd acc b
        | none => acc
      else acc) []
  decide (Buildings.HOUSE ∈ neighbors) &&
    decide (Buildings.FOREST ∈ neighbors) &&
    decide (Buildings.LAKE ∈ neighbors)

/-- `calculatePlazaBonus` from `scoring.service.ts`: 10 points for every
SQUARE cell adjacent to all three building types. -/
def calculatePlazaBonus (board : Board) (config : GameConfig) : Int :=
  ((gridList config.rows config.cols).map fun p =>
    if getCell board p = some Buildings.SQUARE then
      (if isPlazaAdjacentToAllThree board p.1 p.2 config then 10 else 0)
    else 0).sum

/-- Placement state machine states (`placement-state.model.ts`, including
the `BONUS` state referenced throughout the placement engine). -/
inductive PlacementState where
  | PREP_FIRST
  | PREP_SECOND
  | PREP_DOUBLES_FIRST
  | PREP_DOUBLES_SECOND
  | FIRST
  | SECOND
  | COMPLETE
  | DOUBLES_FIRST
  | DOUBLES_SQUARE
  | BONUS
deriving DecidableEq, Repr

/-- `isColumnFull` from the placement rule engine: a column with no
`null` cell.  `board[row][col] === null` is false out of range, so short
rows count as occupied, as in the source. -/
def isColumnFull (board : Board) (col : Int) : Bool :=
  board.all fun rowL => decide (jsIndex rowL col ≠ some none)

/-- `countEmptySpaces` from the placement rule engine. -/
def countEmptySpaces (board : Board) (col : Int) : Nat :=
  board.countP fun rowL => decide (jsIndex rowL col = some none)

/-- `getAdjacentColumns` from the placement rule engine: neighbours of a
full target column, preferring the one with strictly more empty cells. -/
def getAdjacentColumns (board : Board) (targetCol : Int)
    (totalCols : Nat) : List Int :=
  let leftCol := targetCol - 1
  let rightCol := targetCol + 1
  if ¬ 0 ≤ leftCol ∧ ¬ rightCol < (totalCols : Int) then []
  else if ¬ 0 ≤ leftCol then [rightCol]
  else if ¬ rightCol < (totalCols : Int) then [leftCol]
  else
    let leftEmpty := countEmptySpaces board leftCol
    let rightEmpty := countEmptySpaces board rightCol
    if rightEmpty < leftEmpty then [leftCol]
    else if leftEmpty < rightEmpty then [rightCol]
    else [leftCol, rightCol]

/-- The `switch (state)` of `getAllowedColumns` computing the dice-derived
target column (`none` both for `DOUBLES_SQUARE` and the default case,
where the source returns `null` directly). -/
def stateTargetColumn (state : PlacementState) (rolls : List Int) :
    Option Int :=
  match state with
  | PlacementState.PREP_FIRST => some (rolls.getD 0 0 - 1)
  | PlacementState.PREP_SECOND => some (rolls.getD 1 0 - 1)
  | PlacementState.PREP_DOUBLES_FIRST => some (rolls.getD 0 0 - 1)
  | PlacementState.PREP_DOUBLES_SECOND => some (rolls.getD 0 0 - 1)
  | PlacementState.FIRST => some (rolls.getD 0 0 - 1)
  | PlacementState.SECOND => some (rolls.getD 1 0 - 1)
  | PlacementState.DOUBLES_FIRST => some (rolls.getD 0 0 - 1)
  | _ => none

/-- `getAllowedColumns` from the placement rule engine (`null` = any
column allowed, modelled by `none`). -/
def getAllowedColumns (state : PlacementState) (rolls : List Int)
    (board : Board) (totalCols : Nat) : Option (List Int) :=
  if rolls.length < 2 then none
  else
    match stateTargetColumn state rolls with
    | none => none
    | some targetColumn =>
      if isColumnFull board targetColumn then
        some (getAdjacentColumns board targetColumn totalCols)
      else some [targetColumn]

/-- `canPlaceInCell` from the placement rule engine (the variant with the
full-column fallback).  Cell keys are coordinate pairs. -/
def canPlaceInCell (row col : Nat) (state : PlacementState)
    (rolls : Option (List Int)) (board : Board)
    (selectedBuilding : Option Buildings)
    (currentTurnPlacements : List (Nat × Nat))
    (availableBonusBuildings : List Buildings) (totalCols : Nat) : Bool :=
  if state = PlacementState.BONUS then
    match selectedBuilding with
    | none => false
    | some sb =>
      if sb ∉ availableBonusBuildings then false
      else
        decide (getCell board ((row : Int), (col : Int)) = none ∨
          (row, col) ∈ currentTurnPlacements)
  else
    match rolls with
    | none => false
    | some rs =>
      if rs.length < 2 then false
      else if state = PlacementState.COMPLETE then false
      else if getCell board ((row : Int), (col : Int)) ≠ none ∧
          (row, col) ∉ currentTurnPlacements then false
      else if (state = PlacementState.PREP_FIRST ∨
          state = PlacementState.PREP_SECOND ∨
          state = PlacementState.PREP_DOUBLES_FIRST ∨
          state = PlacementState.PREP_DOUBLES_SECOND) ∧
          selectedBuilding = none then false
      else
        match getAllowedColumns state rs board totalCols with
        | none => true
        | some allowed => decide ((col : Int) ∈ allowed)

/-- `getNextPlacementState` from the placement rule engine (the variant
with the symmetric already-placed checks). -/
def getNextPlacementState (currentState : PlacementState)
    (firstTurnPlaced secondTurnPlaced : Bool) : PlacementState :=
  match currentState with
  | PlacementState.PREP_FIRST => PlacementState.PREP_SECOND
  | PlacementState.PREP_DOUBLES_FIRST => PlacementState.PREP_DOUBLES_SECOND
  | PlacementState.FIRST =>
    if secondTurnPlaced then PlacementState.COMPLETE
    else PlacementState.SECOND
  | PlacementState.SECOND =>
    if firstTurnPlaced then PlacementState.COMPLETE
    else PlacementState.FIRST
  | PlacementState.DOUBLES_FIRST =>
    if secondTurnPlaced then PlacementState.COMPLETE
    else PlacementState.DOUBLES_SQUARE
  | PlacementState.DOUBLES_SQUARE =>
    if firstTurnPlaced then PlacementState.COMPLETE
    else PlacementState.DOUBLES_FIRST
  | PlacementState.PREP_SECOND =>
    if firstTurnPlaced then PlacementState.COMPLETE
    else PlacementState.PREP_FIRST
  | PlacementState.PREP_DOUBLES_SECOND =>
    if firstTurnPlaced then PlacementState.COMPLETE
    else PlacementState.PREP_DOUBLES_FIRST
  | s => s

/-- JavaScript `Map.set` on an association-list model: replace the value in
place when the key is present, append otherwise (insertion order kept). -/
def mapSet (m : List (Nat × Buildings)) (k : Nat) (v : Buildings) :
    List (Nat × Buildings) :=
  if m.any fun kv => decide (kv.1 = k) then
    m.map fun kv => if kv.1 = k then (k, v) else kv
  else m ++ [(k, v)]

/-- The mutable state of `game-state.service.ts` (one signal per field). -/
structure GameState where
  currentRound : Nat
  gameComplete : Bool
  inPreparationPhase : Bool
  footerScores : List Int
  inBonusStage : Bool
  usedBonusBuildings : List Buildings
  bonusStageBuildings : List (Nat × Buildings)
  currentTurnPlacements : List (Nat × Nat)
  firstTurnPlaced : Bool
  secondTurnPlaced : Bool
  selectedScoringRow : Option Int
deriving DecidableEq

/-- `initializeGame` of `game-state.service.ts` (also the body of
`resetGame`): reset every field except `selectedScoringRow`, which the
source leaves untouched. -/
def initGame (config : GameConfig) (s : GameState) : GameState :=
  { s with
    currentRound := 0
    gameComplete := false
    inPreparationPhase := true
    footerScores := List.replicate config.maxRounds 0
    inBonusStage := false
    usedBonusBuildings := []
    bonusStageBuildings := []
    currentTurnPlacements := []
    firstTurnPlaced := false
    secondTurnPlaced := false }

/-- The mutating operations of `game-state.service.ts` other than
`initializeGame`/`resetGame` (which delimit the sequences the session
invariants quantify over). -/
inductive SessionOp where
  | advanceRound (maxRounds : Nat)
  | setRoundScore (roundIndex : Int) (score : Int)
  | exitPreparationPhase
  | startBonusStage
  | completeBonusStage (b : Buildings)
  | addCurrentTurnPlacement (key : Nat × Nat)
  | clearCurrentTurnPlacements
  | markFirstTurnPlaced
  | markSecondTurnPlaced
  | setSelectedScoringRow (row : Option Int)
deriving DecidableEq

/-- One step of the session state machine, method by method from
`game-state.service.ts`. -/
def applyOp (s : GameState) : SessionOp → GameState
  | SessionOp.advanceRound maxRounds =>
    if s.currentRound + 1 ≤ maxRounds then
      { s with currentRound := s.currentRound + 1 }
    else { s with gameComplete := true }
  | SessionOp.setRoundScore roundIndex score =>
    if 0 ≤ roundIndex ∧ roundIndex < (s.footerScores.length : Int) then
      { s with footerScores := s.footerScores.set roundIndex.toNat score }
    else s
  | SessionOp.exitPreparationPhase =>
    { s with inPreparationPhase := false, currentRound := 1 }
  | SessionOp.startBonusStage => { s with inBonusStage := true }
  | SessionOp.completeBonusStage b =>
    { s with
      usedBonusBuildings := setAdd s.usedBonusBuildings b
      bonusStageBuildings := mapSet s.bonusStageBuildings s.currentRound b
      inBonusStage := false }
  | SessionOp.addCurrentTurnPlacement key =>
    { s with currentTurnPlacements := setAdd s.currentTurnPlacements key }
  | SessionOp.clearCurrentTurnPlacements =>
    { s with
      currentTurnPlacements := []
      firstTurnPlaced := false
      secondTurnPlaced := false }
  | SessionOp.markFirstTurnPlaced => { s with firstTurnPlaced := true }
  | SessionOp.markSecondTurnPlaced => { s with secondTurnPlaced := true }
  | SessionOp.setSelectedScoringRow row =>
    { s with selectedScoringRow := row }

/-- Applying a whole sequence of session operations. -/
def applyOps (s : GameState) (ops : List SessionOp) : GameState :=
  ops.foldl applyOp s

/-- `getAvailableBonusBuildings` of `game-state.service.ts`. -/
def getAvailableBonusBuildings (s : GameState) : List Buildings :=
  [Buildings.HOUSE, Buildings.LAKE, Buildings.FOREST].filter
    fun b => decide (b ∉ s.usedBonusBuildings)

/-- Constants of `game-board.component.ts`: `rows`, `cols`, `maxRounds`,
`bonusStageRounds` and `pointMatrix` coincide with `defaultGameConfig`. -/
def gameBoardMaxRounds : Nat := 9

/-- `bonusStageRounds = [3, 6, 9]` of `game-board.component.ts`. -/
def gameBoardBonusStageRounds : List Nat := [3, 6, 9]

/-- The component-local state of `game-board.component.ts` touched by
`completeRound` (board plus the signals it reads and writes). -/
structure GBState where
  board : Board
  currentRound : Nat
  footerScores : List Int
  gameComplete : Bool
  inPreparationPhase : Bool
  inBonusStage : Bool
  currentScoringStreet : Int
  currentScoringGroups : List Pos
deriving DecidableEq

/-- The component's private `getTargetRowFromDiceSum(diceSum,
playerCanChoose)`: with `playerCanChoose = false` the sums 2 and 12
default to row 0 (this older variant differs from the service one). -/
def gameBoardTargetRow (diceSum : Int) (playerCanChoose : Bool) : Int :=
  if diceSum = 2 ∨ diceSum = 12 then (if playerCanChoose then -1 else 0)
  else sumToRowMap diceSum

/-- The component's `calculateStreetScore(diceSum, playerCanChoose)`; its
loop body and constants coincide with the service version at
`defaultGameConfig`. -/
def gameBoardStreetScore (board : Board) (diceSum : Int)
    (playerCanChoose : Bool) : Int :=
  let targetRow := gameBoardTargetRow diceSum playerCanChoose
  if targetRow = -1 then 0
  else
    calculateStreetScoreGo board defaultGameConfig targetRow
      (gridList 5 6) [] 0

/-- Group-collecting loop of the component's `showScoringVisualization`:
same traversal as scoring, but accumulating the member cells of every
qualifying group into the `scoringGroups` set. -/
def gameBoardVizGo (board : Board) (targetRow : Int) :
    List Pos → List Pos → List Pos → List Pos
  | [], _, scoringGroups => scoringGroups
  | p :: cells, visitedCells, scoringGroups =>
    if p ∈ visitedCells then
      gameBoardVizGo board targetRow cells visitedCells scoringGroups
    else
      match getCell board p with
      | none => gameBoardVizGo board targetRow cells visitedCells scoringGroups
      | some building =>
        if building = Buildings.SQUARE then
          gameBoardVizGo board targetRow cells visitedCells scoringGroups
        else
          let res := findConnectedGroup board p.1 p.2 building visitedCells
            defaultGameConfig
          if res.1.any fun q => decide (q.1 = targetRow) then
            gameBoardVizGo board targetRow cells res.2
              (res.1.foldl setAdd scoringGroups)
          else gameBoardVizGo board targetRow cells res.2 scoringGroups

/-- The component's `showScoringVisualization(diceSum)`. -/
def gameBoardShowViz (s : GBState) (diceSum : Int) : GBState :=
  let targetRow := gameBoardTargetRow diceSum false
  if targetRow = -1 then s
  else
    { s with
      currentScoringStreet := targetRow
      currentScoringGroups := gameBoardVizGo s.board targetRow
        (gridList 5 6) [] [] }

/-- The component's `clearScoringVisualization`. -/
def gameBoardClearViz (s : GBState) : GBState :=
  { s with currentScoringStreet := -1, currentScoringGroups := [] }

/-- First timer callback of `completeRound`
(`game-board.component.ts`): compute the street score and record it into
`footerScores` for the current round (bounds-checked). -/
def completeRoundStage1 (sViz : GBState) (diceSum : Int) : GBState :=
  let score := gameBoardStreetScore sViz.board diceSum false
  let roundIndex : Int := (sViz.currentRound : Int) - 1
  if 0 ≤ roundIndex ∧ roundIndex < (gameBoardMaxRounds : Int) then
    { sViz with footerScores := sViz.footerScores.set roundIndex.toNat score }
  else sViz

/-- Nested second timer callback of `completeRound`: clear the
visualization, then enter the bonus stage when the current round is a
configured bonus round, and otherwise advance the round or complete the
game. -/
def completeRoundStage2 (s1 : GBState) : GBState :=
  let s2base := gameBoardClearViz s1
  if s1.currentRound ∈ gameBoardBonusStageRounds then
    { s2base with inBonusStage := true }
  else if s1.currentRound + 1 ≤ gameBoardMaxRounds then
    { s2base with currentRound := s1.currentRound + 1 }
  else { s2base with gameComplete := true }

/-- `completeRound` of `game-board.component.ts`, as the sequence of
component states observable at its scheduling boundaries: the state on
entry, the state after the synchronous part (visualization shown), the
state after the first timer callback (street score recorded), and the
state after the nested second timer callback (visualization cleared, then
either the bonus stage entered — when the current round is a configured
bonus round — or the round advanced / the game completed).  Early returns
yield the singleton trace. -/
def completeRound (s : GBState) (currentRolls : Option (List Int)) :
    List GBState :=
  match currentRolls with
  | none => [s]
  | some rolls =>
    if rolls.length ≠ 2 then [s]
    else if s.inBonusStage then [s]
    else if s.inPreparationPhase then
      [s, { s with inPreparationPhase := false, currentRound := 1 }]
    else
      let diceSum := rolls.getD 0 0 + rolls.getD 1 0
      let sViz := gameBoardShowViz s diceSum
      let s1 := completeRoundStage1 sViz diceSum
      [s, sViz, s1, completeRoundStage2 s1]

/-- In-bounds predicate for a coordinate pair against configured
dimensions. -/
def inGrid (rows cols : Nat) (p : Pos) : Prop :=
  0 ≤ p.1 ∧ p.1 < (rows : Int) ∧ 0 ≤ p.2 ∧ p.2 < (cols : Int)

instance (rows cols : Nat) (p : Pos) : Decidable (inGrid rows cols p) :=
  inferInstanceAs (Decidable (_ ∧ _ ∧ _ ∧ _))

/-- A cell that can belong to a street-scoring group: in bounds, occupied,
and not a SQUARE. -/
def groupCell (board : Board) (rows cols : Nat) (p : Pos) : Prop :=
  inGrid rows cols p ∧
    ∃ b, getCell board p = some b ∧ b ≠ Buildings.SQUARE

/-- One step between two cells of the same group: orthogonally adjacent
group cells holding the same building. -/
def groupStep (board : Board) (rows cols : Nat) (p q : Pos) : Prop :=
  groupCell board rows cols p ∧ groupCell board rows cols q ∧
    getCell board p = getCell board q ∧ q ∈ nbrs p

/-- Two cells lie in the same maximal 4-connected equal-building group. -/
def sameGroup (board : Board) (rows cols : Nat) (p q : Pos) : Prop :=
  Relation.ReflTransGen (groupStep board rows cols) p q

/-- A cell is valid for a flood fill of a fixed building type. -/
def bfsValid (board : Board) (rows cols : Nat) (bt : Buildings)
    (p : Pos) : Prop :=
  inGrid rows cols p ∧ getCell board p = some bt

/-- One BFS step within the flood fill of building type `bt`. -/
def bfsStep (board : Board) (rows cols : Nat) (bt : Buildings)
    (p q : Pos) : Prop :=
  bfsValid board rows cols bt p ∧ bfsValid board rows cols bt q ∧
    q ∈ nbrs p

/-- Reachability through same-type cells, the specification of the flood
fill. -/
def bfsReach (board : Board) (rows cols : Nat) (bt : Buildings)
    (p q : Pos) : Prop :=
  Relation.ReflTransGen (bfsStep board rows cols bt) p q

open Classical in
/-- Specification of street scoring: every cell whose maximal
4-connected equal-building group touches the target row contributes its
point-matrix value, and no other cell contributes.  (Summing the
point values cell by cell is the same as summing group by group over the
maximal groups touching the row, since distinct maximal groups are
disjoint.) -/
noncomputable def streetScoreSpec (board : Board) (config : GameConfig)
    (targetRow : Int) : Int :=
  ((gridList config.rows config.cols).map fun p =>
    if groupCell board config.rows config.cols p ∧
        (∃ q, sameGroup board config.rows config.cols p q ∧
          q.1 = targetRow) then
      getCellPoints p.1 p.2 config
    else 0).sum

/-- Specification of a qualifying plaza: some in-bounds orthogonal
neighbour holds a HOUSE, some a FOREST and some a LAKE. -/
def plazaQualifies (board : Board) (config : GameConfig) (p : Pos) : Prop :=
  (∃ q ∈ (nbrs p).filter fun q =>
      decide (inGrid config.rows config.cols q),
    getCell board q = some Buildings.HOUSE) ∧
  (∃ q ∈ (nbrs p).filter fun q =>
      decide (inGrid config.rows config.cols q),
    getCell board q = some Buildings.FOREST) ∧
  (∃ q ∈ (nbrs p).filter fun q =>
      decide (inGrid config.rows config.cols q),
    getCell board q = some Buildings.LAKE)

instance (board : Board) (config : GameConfig) (p : Pos) :
    Decidable (plazaQualifies board config p) :=
  inferInstanceAs (Decidable (_ ∧ _ ∧ _))

/-- Loop invariant of the BFS in `findConnectedGroup`, relating the queue,
the local and global visited sets and the accumulated group to the start
cell and the initial global visited set `vg0`. -/
structure BfsInv (board : Board) (rows cols : Nat) (bt : Buildings)
    (start : Pos) (vg0 : List Pos)
    (queue vl vg g : List Pos) : Prop where
  group_eq : g.reverse = vl
  global_eq : vg = vl ++ vg0
  local_nodup : vl.Nodup
  local_valid : ∀ x ∈ vl, bfsValid board rows cols bt x
  local_reach : ∀ x ∈ vl, bfsReach board rows cols bt start x
  queue_src : ∀ q ∈ queue, q = start ∨ ∃ p ∈ vl, q ∈ nbrs p
  frontier : ∀ p ∈ vl, ∀ q ∈ nbrs p, q ∈ queue ∨ q ∈ vg ∨
    ¬ bfsValid board rows cols bt q

/-- An empty 6-cell row. -/
def emptyRow6 : List Cell := [none, none, none, none, none, none]

/-- A 5×6 board whose columns 0 and 1 are completely full and whose other
columns are empty. -/
def fullTwoColsBoard : Board :=
  [[some Buildings.HOUSE, some Buildings.HOUSE, none, none, none, none],
   [some Buildings.HOUSE, some Buildings.HOUSE, none, none, none, none],
   [some Buildings.HOUSE, some Buildings.HOUSE, none, none, none, none],
   [some Buildings.HOUSE, some Buildings.HOUSE, none, none, none, none],
   [some Buildings.HOUSE, some Buildings.HOUSE, none, none, none, none]]

/-- A 5×6 board with two adjacent houses on row 2 (the spec's street-7
scoring example). -/
def twoHousesBoard : Board :=
  [emptyRow6, emptyRow6,
   [some Buildings.HOUSE, some Buildings.HOUSE, none, none, none, none],
   emptyRow6, emptyRow6]

/-- A game-board component state at the start of bonus round 3, with
`twoHousesBoard` on the board and no score recorded yet. -/
def round3State : GBState where
  board := twoHousesBoard
  currentRound := 3
  footerScores := [0, 0, 0, 0, 0, 0, 0, 0, 0]
  gameComplete := false
  inPreparationPhase := false
  inBonusStage := false
  currentScoringStreet := -1
  currentScoringGroups := []

theorem mem_setAdd {α : Type} [DecidableEq α] (s : List α) (x y : α) :
    y ∈ setAdd s x ↔ y ∈ s ∨ y = x := by
  unfold setAdd
  split
  · constructor
    · exact Or.inl
    · rintro (h | rfl) <;> assumption
  · simp

theorem applyOp_used_mono (s : GameState) (op : SessionOp) (b : Buildings)
    (hb : b ∈ s.usedBonusBuildings) :
    b ∈ (applyOp s op).usedBonusBuildings := by
  cases op <;> simp only [applyOp] <;> first
    | exact hb
    | (split <;> exact hb)
    | exact (mem_setAdd _ _ _).mpr (Or.inl hb)

theorem applyOps_used_mono (s : GameState) (ops : List SessionOp)
    (b : Buildings) (hb : b ∈ s.usedBonusBuildings) :
    b ∈ (applyOps s ops).usedBonusBuildings := by
  induction ops generalizing s with
  | nil => exact hb
  | cons op ops ih => exact ih (applyOp s op) (applyOp_used_mono s op b hb)

/-- C3: for every second-step placement state (`SECOND`, `DOUBLES_SQUARE`,
`PREP_SECOND`, `PREP_DOUBLES_SECOND`), `getNextPlacementState` returns
`COMPLETE` if and only if the other sub-placement was already marked
placed, and otherwise returns the corresponding first-step state;
symmetrically, `FIRST` and `DOUBLES_FIRST` transition directly to
`COMPLETE` exactly when the second sub-placement was already marked done,
so the two sub-placements of a turn may be issued in either order and
`COMPLETE` is reached exactly when both are done. -/
theorem getNextPlacementState_order_symmetric :
    ∀ firstPlaced secondPlaced : Bool,
      (getNextPlacementState PlacementState.SECOND firstPlaced secondPlaced =
          PlacementState.COMPLETE ↔ firstPlaced = true) ∧
      (getNextPlacementState PlacementState.SECOND false secondPlaced =
        PlacementState.FIRST) ∧
      (getNextPlacementState PlacementState.DOUBLES_SQUARE firstPlaced
          secondPlaced = PlacementState.COMPLETE ↔ firstPlaced = true) ∧
      (getNextPlacementState PlacementState.DOUBLES_SQUARE false
        secondPlaced = PlacementState.DOUBLES_FIRST) ∧
      (getNextPlacementState PlacementState.PREP_SECOND firstPlaced
          secondPlaced = PlacementState.COMPLETE ↔ firstPlaced = true) ∧
      (getNextPlacementState PlacementState.PREP_SECOND false secondPlaced =
        PlacementState.PREP_FIRST) ∧
      (getNextPlacementState PlacementState.PREP_DOUBLES_SECOND firstPlaced
          secondPlaced = PlacementState.COMPLETE ↔ firstPlaced = true) ∧
      (getNextPlacementState PlacementState.PREP_DOUBLES_SECOND false
        secondPlaced = PlacementState.PREP_DOUBLES_FIRST) ∧
      (getNextPlacementState PlacementState.FIRST firstPlaced secondPlaced =
          PlacementState.COMPLETE ↔ secondPlaced = true) ∧
      (getNextPlacementState PlacementState.FIRST firstPlaced false =
        PlacementState.SECOND) ∧
      (getNextPlacementState PlacementState.DOUBLES_FIRST firstPlaced
          secondPlaced = PlacementState.COMPLETE ↔ secondPlaced = true) ∧
      (getNextPlacementState PlacementState.DOUBLES_FIRST firstPlaced false =
        PlacementState.DOUBLES_SQUARE) := by
  decide

/-- C4: the dice-sum-to-street map sends 3 and 4 to row 0, 5 and 6 to
row 1, 7 to row 2, 8 and 9 to row 3, 10 and 11 to row 4; sums 2 and 12
yield the player-nominated row when supplied and `-1` ("none") otherwise;
and whenever the target row resolves to "none", street scoring returns 0. -/
theorem getTargetRowFromDiceSum_spec :
    (∀ (config : GameConfig) (sel : Option Int),
      getTargetRowFromDiceSum 3 config sel = 0 ∧
      getTargetRowFromDiceSum 4 config sel = 0 ∧
      getTargetRowFromDiceSum 5 config sel = 1 ∧
      getTargetRowFromDiceSum 6 config sel = 1 ∧
      getTargetRowFromDiceSum 7 config sel = 2 ∧
      getTargetRowFromDiceSum 8 config sel = 3 ∧
      getTargetRowFromDiceSum 9 config sel = 3 ∧
      getTargetRowFromDiceSum 10 config sel = 4 ∧
      getTargetRowFromDiceSum 11 config sel = 4) ∧
    (∀ (config : GameConfig) (r : Int),
      getTargetRowFromDiceSum 2 config (some r) = r ∧
      getTargetRowFromDiceSum 12 config (some r) = r) ∧
    (∀ config : GameConfig,
      getTargetRowFromDiceSum 2 config none = -1 ∧
      getTargetRowFromDiceSum 12 config none = -1) ∧
    (∀ (diceSum : Int) (board : Board) (config : GameConfig)
      (sel : Option Int),
      getTargetRowFromDiceSum diceSum config sel = -1 →
        calculateStreetScore diceSum board config sel = 0) := by
  refine ⟨fun config sel => ?_, fun config r => ?_, fun config => ?_,
    fun diceSum board config sel h => ?_⟩
  · refine ⟨rfl, rfl, rfl, rfl, rfl, rfl, rfl, rfl, rfl⟩
  · exact ⟨rfl, rfl⟩
  · exact ⟨rfl, rfl⟩
  · simp only [calculateStreetScore, h, reduceIte]

/-- C4 witness: dice sum 2 with no nominated row resolves to "none" and
scores 0 on a concrete board. -/
theorem getTargetRowFromDiceSum_spec_witness :
    getTargetRowFromDiceSum 2 defaultGameConfig none = -1 ∧
    calculateStreetScore 2 [] defaultGameConfig none = 0 :=
  ⟨rfl, getTargetRowFromDiceSum_spec.2.2.2 2 [] defaultGameConfig none rfl⟩

/-- C5: in both the bonus and the non-bonus branch, `canPlaceInCell`
rejects any cell that currently holds a building and is not a member of
the current turn's placement set, so board cells are only ever overwritten
when empty or placed during the same turn. -/
theorem canPlaceInCell_occupied_foreign_false
    (row col : Nat) (state : PlacementState) (rolls : Option (List Int))
    (board : Board) (selectedBuilding : Option Buildings)
    (currentTurnPlacements : List (Nat × Nat))
    (availableBonusBuildings : List Buildings) (totalCols : Nat)
    (hocc : getCell board ((row : Int), (col : Int)) ≠ none)
    (hkey : (row, col) ∉ currentTurnPlacements) :
    canPlaceInCell row col state rolls board selectedBuilding
      currentTurnPlacements availableBonusBuildings totalCols = false := by
  unfold canPlaceInCell
  split
  · match selectedBuilding with
    | none => rfl
    | some sb =>
      split
      · rfl
      · simp [hocc, hkey]
  · match rolls with
    | none => rfl
    | some rs => simp [hocc, hkey]

/-- C5 witness: a concrete occupied cell from a previous turn is rejected. -/
theorem canPlaceInCell_occupied_foreign_false_witness :
    getCell [[some Buildings.HOUSE]] ((((0 : Nat) : Int)), (((0 : Nat) : Int))) ≠
      none ∧
    ((0, 0) : Nat × Nat) ∉ ([] : List (Nat × Nat)) ∧
    canPlaceInCell 0 0 PlacementState.FIRST (some [1, 2])
      [[some Buildings.HOUSE]] none [] [] 6 = false :=
  ⟨by decide, by decide,
    canPlaceInCell_occupied_foreign_false 0 0 PlacementState.FIRST
      (some [1, 2]) [[some Buildings.HOUSE]] none [] [] 6
      (by decide) (by decide)⟩

/-- C8: the die-face-to-building map sends faces 1 and 4 to HOUSE, 2 and 5
to FOREST, 3 and 6 to LAKE, never produces SQUARE, and fails (the
`InvalidDieFace` throw, modelled by `none`) exactly on values outside
1..6. -/
theorem getBuildingFromDice_spec :
    getBuildingFromDice 1 = some Buildings.HOUSE ∧
    getBuildingFromDice 4 = some Buildings.HOUSE ∧
    getBuildingFromDice 2 = some Buildings.FOREST ∧
    getBuildingFromDice 5 = some Buildings.FOREST ∧
    getBuildingFromDice 3 = some Buildings.LAKE ∧
    getBuildingFromDice 6 = some Buildings.LAKE ∧
    (∀ v : Int, getBuildingFromDice v ≠ some Buildings.SQUARE) ∧
    (∀ v : Int, getBuildingFromDice v = none ↔ ¬ (1 ≤ v ∧ v ≤ 6)) := by
  refine ⟨rfl, rfl, rfl, rfl, rfl, rfl, fun v => ?_, fun v => ?_⟩
  · unfold getBuildingFromDice
    split_ifs <;> simp
  · unfold getBuildingFromDice
    split_ifs with h1 h2 h3 <;> simp <;> omega

/-- C10: `getCellPoints` is total: a missing point-matrix row (including
negative or too-large row indices) yields 0, a missing column entry yields
0, and a present entry is returned as is; street scoring therefore cannot
fail on a point matrix smaller than the board. -/
theorem getCellPoints_total (config : GameConfig) (row col : Int) :
    (jsIndex config.pointMatrix row = none →
      getCellPoints row col config = 0) ∧
    (∀ rowL, jsIndex config.pointMatrix row = some rowL →
      (jsIndex rowL col = none → getCellPoints row col config = 0) ∧
      (∀ v, jsIndex rowL col = some v → getCellPoints row col config = v)) := by
  refine ⟨fun h => ?_, fun rowL h => ⟨fun h2 => ?_, fun v h2 => ?_⟩⟩ <;>
    simp [getCellPoints, *]

/-- C10 witness: row index 7 is outside the default 5-row point matrix and
scores 0. -/
theorem getCellPoints_total_witness :
    jsIndex defaultGameConfig.pointMatrix 7 = none ∧
    getCellPoints 7 0 defaultGameConfig = 0 :=
  ⟨by decide, (getCellPoints_total defaultGameConfig 7 0).1 (by decide)⟩

/-- C2 counterexample: target column 0 (state `FIRST`, first die 1) is an
edge column and is full, and its only neighbour, column 1, is also full;
the claim demands that no columns be allowed, but `getAllowedColumns`
returns the full neighbour column 1. -/
theorem getAllowedColumns_full_edge_neighbor_counterexample :
    stateTargetColumn PlacementState.FIRST [1, 2] = some 0 ∧
    isColumnFull fullTwoColsBoard 0 = true ∧
    isColumnFull fullTwoColsBoard 1 = true ∧
    getAllowedColumns PlacementState.FIRST [1, 2] fullTwoColsBoard 6 =
      some [1] ∧
    getAllowedColumns PlacementState.FIRST [1, 2] fullTwoColsBoard 6 ≠
      some [] := by
  refine ⟨rfl, rfl, rfl, by decide, by decide⟩

/-- C2 (amended): for every placement state that derives a target column
from the roll, a non-full target column is the only allowed column; a full
target column with both neighbours on the board falls back to the
neighbour with strictly more empty cells, or to both when they are equally
empty; a full edge target column falls back to its single existing
neighbour regardless of that neighbour's contents; and no columns are
allowed only when no adjacent column exists at all. -/
theorem getAllowedColumns_characterization
    (state : PlacementState) (rolls : List Int) (board : Board)
    (totalCols : Nat) (tc : Int)
    (hlen : 2 ≤ rolls.length)
    (htc : stateTargetColumn state rolls = some tc) :
    (isColumnFull board tc = false →
      getAllowedColumns state rolls board totalCols = some [tc]) ∧
    (isColumnFull board tc = true →
      (0 ≤ tc - 1 → tc + 1 < (totalCols : Int) →
        (countEmptySpaces board (tc + 1) < countEmptySpaces board (tc - 1) →
          getAllowedColumns state rolls board totalCols = some [tc - 1]) ∧
        (countEmptySpaces board (tc - 1) < countEmptySpaces board (tc + 1) →
          getAllowedColumns state rolls board totalCols = some [tc + 1]) ∧
        (countEmptySpaces board (tc - 1) = countEmptySpaces board (tc + 1) →
          getAllowedColumns state rolls board totalCols =
            some [tc - 1, tc + 1])) ∧
      (¬ 0 ≤ tc - 1 → tc + 1 < (totalCols : Int) →
        getAllowedColumns state rolls board totalCols = some [tc + 1]) ∧
      (0 ≤ tc - 1 → ¬ tc + 1 < (totalCols : Int) →
        getAllowedColumns state rolls board totalCols = some [tc - 1]) ∧
      (¬ 0 ≤ tc - 1 → ¬ tc + 1 < (totalCols : Int) →
        getAllowedColumns state rolls board totalCols = some [])) := by
  have hnot : ¬ rolls.length < 2 := by omega
  constructor
  · intro hfull
    simp [getAllowedColumns, hnot, htc, hfull]
  · intro hfull
    refine ⟨fun hL hR => ⟨fun hgt => ?_, fun hlt => ?_, fun heq => ?_⟩,
      fun hL hR => ?_, fun hL hR => ?_, fun hL hR => ?_⟩
    · simp [getAllowedColumns, hnot, htc, hfull, getAdjacentColumns,
        hL, hR, hgt]
    · have hng : ¬ countEmptySpaces board (tc + 1) <
        countEmptySpaces board (tc - 1) := by omega
      simp [getAllowedColumns, hnot, htc, hfull, getAdjacentColumns,
        hL, hR, hng, hlt]
    · have hng : ¬ countEmptySpaces board (tc + 1) <
        countEmptySpaces board (tc - 1) := by omega
      have hng2 : ¬ countEmptySpaces board (tc - 1) <
        countEmptySpaces board (tc + 1) := by omega
      simp [getAllowedColumns, hnot, htc, hfull, getAdjacentColumns,
        hL, hR, hng, hng2]
    · simp [getAllowedColumns, hnot, htc, hfull, getAdjacentColumns, hL, hR]
    · simp [getAllowedColumns, hnot, htc, hfull, getAdjacentColumns, hL, hR]
    · simp [getAllowedColumns, hnot, htc, hfull, getAdjacentColumns, hL, hR]

/-- C2 witness for the amended characterization: full edge target column 0
with full neighbour column 1 still yields column 1. -/
theorem getAllowedColumns_characterization_witness :
    getAllowedColumns PlacementState.FIRST [1, 2] fullTwoColsBoard 6 =
      some [(0 : Int) + 1] :=
  ((getAllowedColumns_characterization PlacementState.FIRST [1, 2]
      fullTwoColsBoard 6 0 (by decide) (by decide)).2 (by decide)).2.1
    (by decide) (by decide)

theorem gameBoardShowViz_preserves (s : GBState) (diceSum : Int) :
    (gameBoardShowViz s diceSum).board = s.board ∧
    (gameBoardShowViz s diceSum).currentRound = s.currentRound ∧
    (gameBoardShowViz s diceSum).footerScores = s.footerScores ∧
    (gameBoardShowViz s diceSum).gameComplete = s.gameComplete ∧
    (gameBoardShowViz s diceSum).inPreparationPhase =
      s.inPreparationPhase ∧
    (gameBoardShowViz s diceSum).inBonusStage = s.inBonusStage := by
  unfold gameBoardShowViz
  by_cases h : gameBoardTargetRow diceSum false = -1 <;> simp [h]

theorem completeRound_shape (s : GBState) (r1 r2 : Int)
    (hb : s.inBonusStage = false) (hp : s.inPreparationPhase = false) :
    completeRound s (some [r1, r2]) =
      [s, gameBoardShowViz s (r1 + r2),
       completeRoundStage1 (gameBoardShowViz s (r1 + r2)) (r1 + r2),
       completeRoundStage2
         (completeRoundStage1 (gameBoardShowViz s (r1 + r2)) (r1 + r2))] := by
  simp [completeRound, hb, hp]

theorem completeRoundStage1_preserves (sViz : GBState) (diceSum : Int) :
    (completeRoundStage1 sViz diceSum).currentRound = sViz.currentRound ∧
    (completeRoundStage1 sViz diceSum).inBonusStage = sViz.inBonusStage ∧
    (completeRoundStage1 sViz diceSum).board = sViz.board := by
  unfold completeRoundStage1
  dsimp only
  split <;> exact ⟨rfl, rfl, rfl⟩

theorem completeRoundStage1_in_range (sViz : GBState) (diceSum : Int)
    (h : 1 ≤ sViz.currentRound ∧ sViz.currentRound ≤ 9) :
    (completeRoundStage1 sViz diceSum).footerScores =
      sViz.footerScores.set (sViz.currentRound - 1)
        (gameBoardStreetScore sViz.board diceSum false) := by
  unfold completeRoundStage1
  dsimp only
  rw [if_pos (by constructor <;> [omega; (simp [gameBoardMaxRounds]; omega)])]
  have ht : (((sViz.currentRound : Int)) - 1).toNat = sViz.currentRound - 1 := by
    omega
  rw [ht]

theorem completeRoundStage2_bonus (s1 : GBState)
    (h : s1.currentRound ∈ gameBoardBonusStageRounds) :
    (completeRoundStage2 s1).inBonusStage = true := by
  unfold completeRoundStage2
  dsimp only
  rw [if_pos h]

/-- C7 counterexample: completing bonus round 3 on a concrete state (two
houses on row 2, dice 3 and 4) passes through the intermediate state
reached after the first timer callback, in which the round-3 score (2) is
already recorded in the per-round score array while the bonus stage has
not yet been entered; the bonus stage is entered only in the final state.
This refutes the claim that `startBonusStage` fires before any score for
the round is recorded. -/
theorem completeRound_score_before_bonus_counterexample :
    ((completeRound round3State (some [3, 4])).map fun st =>
      (st.footerScores.getD 2 0, st.inBonusStage)) =
      [(0, false), (0, false), (2, false), (2, true)] := by
  decide

/-- C7 (amended): when a configured bonus round completes (dice present,
not in the preparation phase, not already in the bonus stage), the
round-completion trace records the street score for the current round in
the per-round score array at the first timer callback, strictly before
the bonus stage is entered at the second timer callback: there is an
observable intermediate state with the score recorded and the bonus stage
not yet entered. -/
theorem completeRound_records_score_then_enters_bonus
    (s : GBState) (r1 r2 : Int)
    (hb : s.inBonusStage = false) (hp : s.inPreparationPhase = false)
    (hr : s.currentRound ∈ gameBoardBonusStageRounds) :
    ∃ sViz s1 s2, completeRound s (some [r1, r2]) = [s, sViz, s1, s2] ∧
      s1.footerScores = sViz.footerScores.set (s.currentRound - 1)
        (gameBoardStreetScore s.board (r1 + r2) false) ∧
      sViz.footerScores = s.footerScores ∧
      s1.inBonusStage = false ∧
      s2.inBonusStage = true ∧
      s2.footerScores = s1.footerScores := by
  obtain ⟨hv1, hv2, hv3, _, _, hv6⟩ := gameBoardShowViz_preserves s (r1 + r2)
  have hround : s.currentRound = 3 ∨ s.currentRound = 6 ∨
      s.currentRound = 9 := by
    simpa [gameBoardBonusStageRounds] using hr
  obtain ⟨hs1a, hs1b, hs1c⟩ :=
    completeRoundStage1_preserves (gameBoardShowViz s (r1 + r2)) (r1 + r2)
  refine ⟨gameBoardShowViz s (r1 + r2),
    completeRoundStage1 (gameBoardShowViz s (r1 + r2)) (r1 + r2),
    completeRoundStage2
      (completeRoundStage1 (gameBoardShowViz s (r1 + r2)) (r1 + r2)),
    completeRound_shape s r1 r2 hb hp, ?_, hv3, ?_, ?_, ?_⟩
  · rw [completeRoundStage1_in_range (gameBoardShowViz s (r1 + r2))
      (r1 + r2) (by omega : 1 ≤ (gameBoardShowViz s (r1 + r2)).currentRound ∧
        (gameBoardShowViz s (r1 + r2)).currentRound ≤ 9)]
    rw [hv1, hv2]
  · rw [hs1b, hv6, hb]
  · rw [completeRoundStage2_bonus _ (by rw [hs1a, hv2]; exact hr)]
  · unfold completeRoundStage2 gameBoardClearViz
    split
    · rfl
    · split <;> rfl

/-- C7 witness for the amended ordering property, at the concrete
bonus-round-3 state. -/
theorem completeRound_records_score_then_enters_bonus_witness :
    round3State.inBonusStage = false ∧
    round3State.inPreparationPhase = false ∧
    round3State.currentRound ∈ gameBoardBonusStageRounds ∧
    (∃ sViz s1 s2,
      completeRound round3State (some [3, 4]) = [round3State, sViz, s1, s2] ∧
      s1.footerScores = sViz.footerScores.set (round3State.currentRound - 1)
        (gameBoardStreetScore round3State.board (3 + 4) false) ∧
      sViz.footerScores = round3State.footerScores ∧
      s1.inBonusStage = false ∧
      s2.inBonusStage = true ∧
      s2.footerScores = s1.footerScores) :=
  ⟨rfl, rfl, by decide,
    completeRound_records_score_then_enters_bonus round3State 3 4 rfl rfl
      (by decide)⟩

/-- C9: across any sequence of session operations (between
`initializeGame`/`resetGame` calls), the used-bonus-buildings set never
shrinks; `completeBonusStage b` adds exactly `b`; no other operation
changes the set; `getAvailableBonusBuildings` returns exactly the three
non-SQUARE buildings minus the used ones; and consequently (callers only
consume available, hence non-SQUARE, buildings) every used building is one
of HOUSE, LAKE, FOREST, so at most three distinct buildings can ever be
consumed. -/
theorem usedBonusBuildings_monotone_and_available :
    (∀ (s : GameState) (ops : List SessionOp) (b : Buildings),
      b ∈ s.usedBonusBuildings →
        b ∈ (applyOps s ops).usedBonusBuildings) ∧
    (∀ (s : GameState) (b x : Buildings),
      x ∈ (applyOp s (SessionOp.completeBonusStage b)).usedBonusBuildings ↔
        x ∈ s.usedBonusBuildings ∨ x = b) ∧
    (∀ (s : GameState) (op : SessionOp),
      (∀ b, op ≠ SessionOp.completeBonusStage b) →
        (applyOp s op).usedBonusBuildings = s.usedBonusBuildings) ∧
    (∀ (s : GameState) (x : Buildings),
      x ∈ getAvailableBonusBuildings s ↔
        x ≠ Buildings.SQUARE ∧ x ∉ s.usedBonusBuildings) ∧
    (∀ (config : GameConfig) (s0 : GameState) (ops : List SessionOp),
      (∀ b, SessionOp.completeBonusStage b ∈ ops → b ≠ Buildings.SQUARE) →
        ∀ x ∈ (applyOps (initGame config s0) ops).usedBonusBuildings,
          x = Buildings.HOUSE ∨ x = Buildings.LAKE ∨
            x = Buildings.FOREST) := by
  have h3 : ∀ (s : GameState) (op : SessionOp),
      (∀ b, op ≠ SessionOp.completeBonusStage b) →
      (applyOp s op).usedBonusBuildings = s.usedBonusBuildings := by
    intro s op h
    cases op with
    | advanceRound m => simp only [applyOp]; split <;> rfl
    | setRoundScore i sc => simp only [applyOp]; split <;> rfl
    | completeBonusStage b => exact absurd rfl (h b)
    | _ => rfl
  have haux : ∀ (ops : List SessionOp) (s : GameState),
      (∀ b ∈ s.usedBonusBuildings, b = Buildings.HOUSE ∨
        b = Buildings.LAKE ∨ b = Buildings.FOREST) →
      (∀ b, SessionOp.completeBonusStage b ∈ ops →
        b ≠ Buildings.SQUARE) →
      ∀ x ∈ (applyOps s ops).usedBonusBuildings,
        x = Buildings.HOUSE ∨ x = Buildings.LAKE ∨ x = Buildings.FOREST := by
    intro ops
    induction ops with
    | nil => intro s hs _ x hx; exact hs x hx
    | cons op ops ih =>
      intro s hs hops x hx
      refine ih (applyOp s op) ?_ (fun b hb => hops b (List.mem_cons_of_mem _ hb)) x hx
      intro b hb
      cases op with
      | completeBonusStage c =>
        rcases (by simpa [applyOp, mem_setAdd] using hb :
            b ∈ s.usedBonusBuildings ∨ b = c) with h | rfl
        · exact hs b h
        · have : b ≠ Buildings.SQUARE := hops b (List.mem_cons_self _ _)
          cases b <;> simp_all
      | _ =>
        rw [h3 s _ (by intro c hc; cases hc)] at hb
        exact hs b hb
  refine ⟨applyOps_used_mono, ?_, h3, ?_, ?_⟩
  · intro s b x
    simp [applyOp, mem_setAdd]
  · intro s x
    unfold getAvailableBonusBuildings
    rw [List.mem_filter]
    cases x <;> simp
  · intro config s0 ops hops x hx
    exact haux ops (initGame config s0) (by intro b hb; cases hb) hops x hx

/-- C9 witness: after one bonus stage consuming HOUSE, the used set is
exactly HOUSE and the availability characterization applies. -/
theorem usedBonusBuildings_monotone_and_available_witness :
    ∀ x ∈ (applyOps (initGame defaultGameConfig
        { currentRound := 0, gameComplete := false,
          inPreparationPhase := true, footerScores := [],
          inBonusStage := false, usedBonusBuildings := [],
          bonusStageBuildings := [], currentTurnPlacements := [],
          firstTurnPlaced := false, secondTurnPlaced := false,
          selectedScoringRow := none })
        [SessionOp.completeBonusStage Buildings.HOUSE]).usedBonusBuildings,
      x = Buildings.HOUSE ∨ x = Buildings.LAKE ∨ x = Buildings.FOREST :=
  usedBonusBuildings_monotone_and_available.2.2.2.2 defaultGameConfig
    { currentRound := 0, gameComplete := false, inPreparationPhase := true,
      footerScores := [], inBonusStage := false, usedBonusBuildings := [],
      bonusStageBuildings := [], currentTurnPlacements := [],
      firstTurnPlaced := false, secondTurnPlaced := false,
      selectedScoringRow := none }
    [SessionOp.completeBonusStage Buildings.HOUSE]
    (by
      intro b hb
      simp only [List.mem_singleton, SessionOp.completeBonusStage.injEq] at hb
      subst hb
      decide)

theorem mem_collectNeighbors (board : Board) (config : GameConfig)
    (l : List Pos) (acc : List Buildings) (x : Buildings) :
    (x ∈ l.foldl
      (fun acc q =>
        if 0 ≤ q.1 ∧ q.1 < (config.rows : Int) ∧ 0 ≤ q.2 ∧
            q.2 < (config.cols : Int) then
          match getCell board q with
          | some b => if b = Buildings.SQUARE then acc else setAdd acc b
          | none => acc
        else acc) acc) ↔
      x ∈ acc ∨ ∃ q ∈ l, inGrid config.rows config.cols q ∧
        getCell board q = some x ∧ x ≠ Buildings.SQUARE := by
  induction l generalizing acc with
  | nil => simp
  | cons q l ih =>
    rw [List.foldl_cons, ih]
    have hstep : ∀ acc2 : List Buildings,
        (x ∈ if 0 ≤ q.1 ∧ q.1 < (config.rows : Int) ∧ 0 ≤ q.2 ∧
            q.2 < (config.cols : Int) then
          match getCell board q with
          | some b => if b = Buildings.SQUARE then acc2 else setAdd acc2 b
          | none => acc2
        else acc2) ↔
        x ∈ acc2 ∨ (inGrid config.rows config.cols q ∧
          getCell board q = some x ∧ x ≠ Buildings.SQUARE) := by
      intro acc2
      by_cases hg : 0 ≤ q.1 ∧ q.1 < (config.rows : Int) ∧ 0 ≤ q.2 ∧
          q.2 < (config.cols : Int)
      · rw [if_pos hg]
        cases hc : getCell board q with
        | none => simp
        | some b =>
          dsimp only
          by_cases hb : b = Buildings.SQUARE
          · subst hb
            rw [if_pos rfl]
            constructor
            · exact Or.inl
            · rintro (h | ⟨_, hx, hne⟩)
              · exact h
              · cases hx
                exact absurd rfl hne
          · rw [if_neg hb, mem_setAdd]
            constructor
            · rintro (h | rfl)
              · exact Or.inl h
              · exact Or.inr ⟨hg, rfl, hb⟩
            · rintro (h | ⟨_, hx, _⟩)
              · exact Or.inl h
              · injection hx with hx2
                exact Or.inr hx2.symm
      · rw [if_neg hg]
        have : ¬ inGrid config.rows config.cols q := hg
        simp [this]
    rw [hstep]
    constructor
    · rintro (⟨h | h⟩ | ⟨r, hr, hprops⟩)
      · exact Or.inl h
      · exact Or.inr ⟨q, List.mem_cons_self _ _, h⟩
      · exact Or.inr ⟨r, List.mem_cons_of_mem _ hr, hprops⟩
    · rintro (h | ⟨r, hr, hprops⟩)
      · exact Or.inl (Or.inl h)
      · rcases List.mem_cons.mp hr with rfl | hr
        · exact Or.inl (Or.inr hprops)
        · exact Or.inr ⟨r, hr, hprops⟩

theorem isPlazaAdjacentToAllThree_iff (board : Board) (config : GameConfig)
    (p : Pos) :
    isPlazaAdjacentToAllThree board p.1 p.2 config = true ↔
      plazaQualifies board config p := by
  unfold isPlazaAdjacentToAllThree plazaQualifies
  simp only [Bool.and_eq_true, decide_eq_true_eq, List.mem_filter,
    mem_collectNeighbors, List.not_mem_nil, false_or]
  constructor
  · rintro ⟨⟨⟨qh, hqh, h1, h2, _⟩, ⟨qf, hqf, h3, h4, _⟩⟩, qg, hqg, h5, h6, _⟩
    exact ⟨⟨qh, ⟨hqh, by simpa using h1⟩, h2⟩, ⟨qf, ⟨hqf, by simpa using h3⟩, h4⟩,
      ⟨qg, ⟨hqg, by simpa using h5⟩, h6⟩⟩
  · rintro ⟨⟨qh, ⟨hqh, h1⟩, h2⟩, ⟨qf, ⟨hqf, h3⟩, h4⟩, qg, ⟨hqg, h5⟩, h6⟩
    exact ⟨⟨⟨qh, hqh, by simpa using h1, h2, by decide⟩,
      ⟨qf, hqf, by simpa using h3, h4, by decide⟩⟩,
      ⟨qg, hqg, by simpa using h5, h6, by decide⟩⟩

theorem sum_ten_indicator_eq_countP (l : List Pos) (P : Pos → Prop)
    [DecidablePred P] :
    (l.map fun p => if P p then (10 : Int) else 0).sum =
      10 * ((l.countP fun p => decide (P p) : Nat) : Int) := by
  induction l with
  | nil => simp
  | cons p l ih =>
    rw [List.map_cons, List.sum_cons, ih, List.countP_cons]
    by_cases h : P p <;> simp [h] <;> push_cast <;> ring

theorem isPlaza_corner_false (board : Board) (config : GameConfig)
    (r c : Nat)
    (hr : r = 0 ∨ (r : Int) = (config.rows : Int) - 1)
    (hc : c = 0 ∨ (c : Int) = (config.cols : Int) - 1) :
    isPlazaAdjacentToAllThree board ((r : Nat) : Int) ((c : Nat) : Int)
      config = false := by
  rw [← Bool.not_eq_true, isPlazaAdjacentToAllThree_iff board config
    (((r : Nat) : Int), ((c : Nat) : Int))]
  set p : Pos := (((r : Nat) : Int), ((c : Nat) : Int)) with hp
  set f : Pos → Bool := fun q => decide (inGrid config.rows config.cols q)
    with hf
  have hud : f (p.1 - 1, p.2) = false ∨ f (p.1 + 1, p.2) = false := by
    rcases hr with h | h
    · left
      rw [hf, decide_eq_false_iff_not]
      rintro ⟨h1, -⟩
      simp only [hp] at h1
      omega
    · right
      rw [hf, decide_eq_false_iff_not]
      rintro ⟨-, h2, -⟩
      simp only [hp] at h2
      omega
  have hlr : f (p.1, p.2 - 1) = false ∨ f (p.1, p.2 + 1) = false := by
    rcases hc with h | h
    · left
      rw [hf, decide_eq_false_iff_not]
      rintro ⟨-, -, h3, -⟩
      simp only [hp] at h3
      omega
    · right
      rw [hf, decide_eq_false_iff_not]
      rintro ⟨-, -, -, h4⟩
      simp only [hp] at h4
      omega
  have hlen : ((nbrs p).filter f).length ≤ 2 := by
    rw [← List.countP_eq_length_filter]
    simp only [nbrs, List.countP_cons, List.countP_nil]
    rcases hud with h | h <;> rcases hlr with h' | h' <;>
      simp [h, h'] <;> split_ifs <;> simp
  rintro ⟨⟨qh, hqh, hch⟩, ⟨qf, hqf, hcf⟩, qg, hqg, hcg⟩
  have hne1 : qh ≠ qf := by
    rintro rfl
    rw [hch] at hcf
    cases hcf
  have hne2 : qh ≠ qg := by
    rintro rfl
    rw [hch] at hcg
    cases hcg
  have hne3 : qf ≠ qg := by
    rintro rfl
    rw [hcf] at hcg
    cases hcg
  have hnd : List.Nodup [qh, qf, qg] := by
    simp [hne1, hne2, hne3]
  have hsub : [qh, qf, qg] ⊆ (nbrs p).filter f := by
    intro z hz
    simp only [List.mem_cons, List.not_mem_nil, or_false] at hz
    rcases hz with rfl | rfl | rfl <;> assumption
  have h3 := (hnd.subperm hsub).length_le
  simp only [List.length_cons, List.length_nil] at h3
  omega

/-- C6: the plaza bonus is exactly 10 times the number of SQUARE cells
whose in-bounds orthogonal neighbours include at least one HOUSE, at least
one FOREST and at least one LAKE; and a SQUARE cell in a board corner
(which has fewer than three in-bounds neighbours) never qualifies. -/
theorem calculatePlazaBonus_spec (board : Board) (config : GameConfig) :
    calculatePlazaBonus board config =
      10 * (((gridList config.rows config.cols).countP fun p =>
        decide (getCell board p = some Buildings.SQUARE ∧
          plazaQualifies board config p) : Nat) : Int) ∧
    ∀ r c : Nat, (r = 0 ∨ (r : Int) = (config.rows : Int) - 1) →
      (c = 0 ∨ (c : Int) = (config.cols : Int) - 1) →
      isPlazaAdjacentToAllThree board ((r : Nat) : Int) ((c : Nat) : Int)
        config = false := by
  constructor
  · unfold calculatePlazaBonus
    rw [List.map_congr_left (fun p _ => ?_),
      sum_ten_indicator_eq_countP (gridList config.rows config.cols)
        fun p => getCell board p = some Buildings.SQUARE ∧
          plazaQualifies board config p]
    by_cases h1 : getCell board p = some Buildings.SQUARE <;>
      by_cases h2 : plazaQualifies board config p <;>
        simp [h1, h2, isPlazaAdjacentToAllThree_iff board config p]
  · exact fun r c hr hc => isPlaza_corner_false board config r c hr hc

/-- C6 witness: the board corner (0,0) never yields a qualifying plaza. -/
theorem calculatePlazaBonus_spec_witness :
    isPlazaAdjacentToAllThree twoHousesBoard (((0 : Nat) : Int))
      (((0 : Nat) : Int)) defaultGameConfig = false :=
  (calculatePlazaBonus_spec twoHousesBoard defaultGameConfig).2 0 0
    (Or.inl rfl) (Or.inl rfl)

theorem nbrs_symm (p q : Pos) : q ∈ nbrs p ↔ p ∈ nbrs q := by
  rcases p with ⟨a, b⟩
  rcases q with ⟨c, d⟩
  simp only [nbrs, List.mem_cons, List.not_mem_nil, or_false,
    Prod.mk.injEq]
  constructor <;>
    · rintro (h | h | h | h) <;>
        (injection h with h1 h2; subst h1; subst h2)
      · exact Or.inr (Or.inl (by rw [Int.sub_add_cancel]))
      · exact Or.inl (by rw [Int.add_sub_cancel])
      · exact Or.inr (Or.inr (Or.inr (by rw [Int.sub_add_cancel])))
      · exact Or.inr (Or.inr (Or.inl (by rw [Int.add_sub_cancel])))

theorem mem_gridList (rows cols : Nat) (p : Pos) :
    p ∈ gridList rows cols ↔ inGrid rows cols p := by
  rcases p with ⟨x, y⟩
  unfold gridList inGrid
  simp only [List.mem_map, Prod.exists, List.mem_product, List.mem_range,
    Prod.mk.injEq]
  constructor
  · rintro ⟨a, b, ⟨ha, hb⟩, heq⟩
    injection heq with hx hy
    refine ⟨?_, ?_, ?_, ?_⟩ <;> omega
  · rintro ⟨h1, h2, h3, h4⟩
    exact ⟨x.toNat, y.toNat, ⟨by omega, by omega⟩,
      by rw [Int.toNat_of_nonneg h1, Int.toNat_of_nonneg h3]⟩

theorem gridList_nodup (rows cols : Nat) : (gridList rows cols).Nodup := by
  unfold gridList
  refine List.Nodup.map ?_
    (List.Nodup.product (List.nodup_range _) (List.nodup_range _))
  rintro ⟨a, b⟩ ⟨c, d⟩ h
  injection h with h1 h2
  obtain rfl : a = c := by exact_mod_cast h1
  obtain rfl : b = d := by exact_mod_cast h2
  rfl

theorem gridList_length (rows cols : Nat) :
    (gridList rows cols).length = rows * cols := by
  unfold gridList
  rw [List.length_map, List.length_product, List.length_range,
    List.length_range]

theorem nodup_inGrid_length_le (rows cols : Nat) (l : List Pos)
    (hnd : l.Nodup) (hin : ∀ x ∈ l, inGrid rows cols x) :
    l.length ≤ rows * cols := by
  have hsub : l ⊆ gridList rows cols := fun x hx =>
    (mem_gridList rows cols x).mpr (hin x hx)
  have h := (hnd.subperm hsub).length_le
  rwa [gridList_length] at h

theorem groupStep_symm (board : Board) (rows cols : Nat) :
    Symmetric (groupStep board rows cols) := by
  rintro p q ⟨hp, hq, hc, hn⟩
  exact ⟨hq, hp, hc.symm, (nbrs_symm p q).mp hn⟩

theorem sameGroup_symm (board : Board) (rows cols : Nat) {p q : Pos}
    (h : sameGroup board rows cols p q) : sameGroup board rows cols q p :=
  Relation.ReflTransGen.symmetric (groupStep_symm board rows cols) h

theorem sameGroup_target (board : Board) (rows cols : Nat) {p q : Pos}
    (h : sameGroup board rows cols p q) :
    p = q ∨ groupCell board rows cols q := by
  cases h with
  | refl => exact Or.inl rfl
  | tail h1 h2 => exact Or.inr h2.2.1

theorem inGrid_of_not_oob (rows cols : Nat) (p : Pos)
    (h : ¬ (p.1 < 0 ∨ (rows : Int) ≤ p.1 ∨ p.2 < 0 ∨ (cols : Int) ≤ p.2)) :
    inGrid rows cols p := by
  unfold inGrid
  push_neg at h
  exact ⟨by omega, by omega, by omega, by omega⟩

theorem not_bfsValid_of_oob (board : Board) (rows cols : Nat)
    (bt : Buildings) (p : Pos)
    (h : p.1 < 0 ∨ (rows : Int) ≤ p.1 ∨ p.2 < 0 ∨ (cols : Int) ≤ p.2) :
    ¬ bfsValid board rows cols bt p := by
  rintro ⟨⟨h1, h2, h3, h4⟩, -⟩
  rcases h with h | h | h | h <;> omega

theorem bfsReach_iff_sameGroup (board : Board) (rows cols : Nat)
    (bt : Buildings) (hbt : bt ≠ Buildings.SQUARE) (s : Pos)
    (hs : bfsValid board rows cols bt s) (q : Pos) :
    bfsReach board rows cols bt s q ↔ sameGroup board rows cols s q := by
  constructor
  · refine Relation.ReflTransGen.mono ?_
    rintro a b ⟨⟨hga, hca⟩, ⟨hgb, hcb⟩, hn⟩
    exact ⟨⟨hga, bt, hca, hbt⟩, ⟨hgb, bt, hcb, hbt⟩, by rw [hca, hcb], hn⟩
  · intro h
    suffices hsuff : getCell board q = some bt ∧
        bfsReach board rows cols bt s q from hsuff.2
    induction h with
    | refl => exact ⟨hs.2, Relation.ReflTransGen.refl⟩
    | tail h1 h2 ih =>
      obtain ⟨hcmid, hreach⟩ := ih
      obtain ⟨⟨hgm, _⟩, ⟨hgq, _⟩, hceq, hn⟩ := h2
      have hcq := hceq.symm.trans hcmid
      exact ⟨hcq, hreach.tail ⟨⟨hgm, hcmid⟩, ⟨hgq, hcq⟩, hn⟩⟩

theorem findConnectedGroupGo_spec (board : Board) (rows cols : Nat)
    (bt : Buildings) (start : Pos) (vg0 : List Pos) :
    ∀ (fuel : Nat) (queue vl vg g : List Pos),
      BfsInv board rows cols bt start vg0 queue vl vg g →
      queue.length + 4 * (rows * cols - vl.length) ≤ fuel →
      ∀ gr vg2,
        findConnectedGroupGo board bt rows cols fuel queue vl vg g =
          (gr, vg2) →
        vg2 = gr.reverse ++ vg0 ∧
        gr.Nodup ∧
        (∀ x ∈ vl, x ∈ gr) ∧
        (∀ x ∈ gr, bfsValid board rows cols bt x ∧
          bfsReach board rows cols bt start x) ∧
        (∀ p ∈ gr, ∀ q ∈ nbrs p, bfsValid board rows cols bt q →
          q ∈ gr ∨ q ∈ vg0) ∧
        (∀ q ∈ queue, bfsValid board rows cols bt q →
          q ∈ gr ∨ q ∈ vg0) := by
  intro fuel
  induction fuel with
  | zero =>
    intro queue vl vg g hInv hmu gr vg2 hres
    have hq : queue = [] := by
      rw [← List.length_eq_zero]
      omega
    subst hq
    obtain ⟨hgr, hvg2⟩ : g = gr ∧ vg = vg2 := by
      constructor <;> [exact congrArg Prod.fst hres; exact congrArg Prod.snd hres]
    subst hgr
    subst hvg2
    refine ⟨by rw [hInv.group_eq, ← hInv.global_eq], ?_, ?_, ?_, ?_, ?_⟩
    · rw [← List.nodup_reverse, hInv.group_eq]
      exact hInv.local_nodup
    · intro x hx
      rw [← List.mem_reverse, hInv.group_eq]
      exact hx
    · intro x hx
      rw [← List.mem_reverse, hInv.group_eq] at hx
      exact ⟨hInv.local_valid x hx, hInv.local_reach x hx⟩
    · intro p hp q hq hvq
      rw [← List.mem_reverse, hInv.group_eq] at hp
      rcases hInv.frontier p hp q hq with h | h | h
      · cases h
      · rw [hInv.global_eq] at h
        rcases List.mem_append.mp h with h | h
        · exact Or.inl (by rw [← List.mem_reverse, hInv.group_eq]; exact h)
        · exact Or.inr h
      · exact absurd hvq h
    · intro q hq
      cases hq
  | succ fuel ih =>
    intro queue vl vg g hInv hmu gr vg2 hres
    match queue with
    | [] =>
      obtain ⟨hgr, hvg2⟩ : g = gr ∧ vg = vg2 := by
        constructor <;>
          [exact congrArg Prod.fst hres; exact congrArg Prod.snd hres]
      subst hgr
      subst hvg2
      refine ⟨by rw [hInv.group_eq, ← hInv.global_eq], ?_, ?_, ?_, ?_, ?_⟩
      · rw [← List.nodup_reverse, hInv.group_eq]
        exact hInv.local_nodup
      · intro x hx
        rw [← List.mem_reverse, hInv.group_eq]
        exact hx
      · intro x hx
        rw [← List.mem_reverse, hInv.group_eq] at hx
        exact ⟨hInv.local_valid x hx, hInv.local_reach x hx⟩
      · intro p hp q hq hvq
        rw [← List.mem_reverse, hInv.group_eq] at hp
        rcases hInv.frontier p hp q hq with h | h | h
        · cases h
        · rw [hInv.global_eq] at h
          rcases List.mem_append.mp h with h | h
          · exact Or.inl (by rw [← List.mem_reverse, hInv.group_eq]; exact h)
          · exact Or.inr h
        · exact absurd hvq h
      · intro q hq
        cases hq
    | q0 :: rest =>
      by_cases h1 : q0 ∈ vl ∨ q0 ∈ vg
      · have hstep : findConnectedGroupGo board bt rows cols (fuel + 1)
            (q0 :: rest) vl vg g =
            findConnectedGroupGo board bt rows cols fuel rest vl vg g := by
          simp only [findConnectedGroupGo]
          rw [if_pos h1]
        rw [hstep] at hres
        have hInv2 : BfsInv board rows cols bt start vg0 rest vl vg g :=
          { group_eq := hInv.group_eq
            global_eq := hInv.global_eq
            local_nodup := hInv.local_nodup
            local_valid := hInv.local_valid
            local_reach := hInv.local_reach
            queue_src := fun q hq =>
              hInv.queue_src q (List.mem_cons_of_mem _ hq)
            frontier := by
              intro p hp q hq
              rcases hInv.frontier p hp q hq with h | h | h
              · rcases List.mem_cons.mp h with rfl | h
                · refine Or.inr (Or.inl ?_)
                  rcases h1 with h1 | h1
                  · rw [hInv.global_eq]
                    exact List.mem_append_left _ h1
                  · exact h1
                · exact Or.inl h
              · exact Or.inr (Or.inl h)
              · exact Or.inr (Or.inr h) }
        have hmu2 : rest.length + 4 * (rows * cols - vl.length) ≤ fuel := by
          simp only [List.length_cons] at hmu
          omega
        obtain ⟨c1, c2, c3, c4, c5, c6⟩ := ih rest vl vg g hInv2 hmu2 gr vg2 hres
        refine ⟨c1, c2, c3, c4, c5, ?_⟩
        intro q hq hvq
        rcases List.mem_cons.mp hq with rfl | hq
        · rcases h1 with h1 | h1
          · exact Or.inl (c3 q h1)
          · rw [hInv.global_eq] at h1
            rcases List.mem_append.mp h1 with h1 | h1
            · exact Or.inl (c3 q h1)
            · exact Or.inr h1
        · exact c6 q hq hvq
      · by_cases h2 : q0.1 < 0 ∨ (rows : Int) ≤ q0.1 ∨ q0.2 < 0 ∨
            (cols : Int) ≤ q0.2
        · have hstep : findConnectedGroupGo board bt rows cols (fuel + 1)
              (q0 :: rest) vl vg g =
              findConnectedGroupGo board bt rows cols fuel rest vl vg g := by
            simp only [findConnectedGroupGo]
            rw [if_neg h1, if_pos h2]
          rw [hstep] at hres
          have hnv : ¬ bfsValid board rows cols bt q0 :=
            not_bfsValid_of_oob board rows cols bt q0 h2
          have hInv2 : BfsInv board rows cols bt start vg0 rest vl vg g :=
            { group_eq := hInv.group_eq
              global_eq := hInv.global_eq
              local_nodup := hInv.local_nodup
              local_valid := hInv.local_valid
              local_reach := hInv.local_reach
              queue_src := fun q hq =>
                hInv.queue_src q (List.mem_cons_of_mem _ hq)
              frontier := by
                intro p hp q hq
                rcases hInv.frontier p hp q hq with h | h | h
                · rcases List.mem_cons.mp h with rfl | h
                  · exact Or.inr (Or.inr hnv)
                  · exact Or.inl h
                · exact Or.inr (Or.inl h)
                · exact Or.inr (Or.inr h) }
          have hmu2 : rest.length + 4 * (rows * cols - vl.length) ≤ fuel := by
            simp only [List.length_cons] at hmu
            omega
          obtain ⟨c1, c2, c3, c4, c5, c6⟩ :=
            ih rest vl vg g hInv2 hmu2 gr vg2 hres
          refine ⟨c1, c2, c3, c4, c5, ?_⟩
          intro q hq hvq
          rcases List.mem_cons.mp hq with rfl | hq
          · exact absurd hvq hnv
          · exact c6 q hq hvq
        · by_cases h3 : getCell board q0 ≠ some bt
          · have hstep : findConnectedGroupGo board bt rows cols (fuel + 1)
                (q0 :: rest) vl vg g =
                findConnectedGroupGo board bt rows cols fuel rest vl vg g := by
              simp only [findConnectedGroupGo]
              rw [if_neg h1, if_neg h2, if_pos h3]
            rw [hstep] at hres
            have hnv : ¬ bfsValid board rows cols bt q0 := fun hv => h3 hv.2
            have hInv2 : BfsInv board rows cols bt start vg0 rest vl vg g :=
              { group_eq := hInv.group_eq
                global_eq := hInv.global_eq
                local_nodup := hInv.local_nodup
                local_valid := hInv.local_valid
                local_reach := hInv.local_reach
                queue_src := fun q hq =>
                  hInv.queue_src q (List.mem_cons_of_mem _ hq)
                frontier := by
                  intro p hp q hq
                  rcases hInv.frontier p hp q hq with h | h | h
                  · rcases List.mem_cons.mp h with rfl | h
                    · exact Or.inr (Or.inr hnv)
                    · exact Or.inl h
                  · exact Or.inr (Or.inl h)
                  · exact Or.inr (Or.inr h) }
            have hmu2 : rest.length + 4 * (rows * cols - vl.length) ≤
                fuel := by
              simp only [List.length_cons] at hmu
              omega
            obtain ⟨c1, c2, c3, c4, c5, c6⟩ :=
              ih rest vl vg g hInv2 hmu2 gr vg2 hres
            refine ⟨c1, c2, c3, c4, c5, ?_⟩
            intro q hq hvq
            rcases List.mem_cons.mp hq with rfl | hq
            · exact absurd hvq hnv
            · exact c6 q hq hvq
          · have hstep : findConnectedGroupGo board bt rows cols (fuel + 1)
                (q0 :: rest) vl vg g =
                findConnectedGroupGo board bt rows cols fuel
                  (rest ++ nbrs q0) (q0 :: vl) (q0 :: vg) (g ++ [q0]) := by
              simp only [findConnectedGroupGo]
              rw [if_neg h1, if_neg h2, if_neg h3]
            rw [hstep] at hres
            have hval : bfsValid board rows cols bt q0 :=
              ⟨inGrid_of_not_oob rows cols q0 h2, not_not.mp h3⟩
            have hq0vl : q0 ∉ vl := fun h => h1 (Or.inl h)
            have hreach0 : bfsReach board rows cols bt start q0 := by
              rcases hInv.queue_src q0 (List.mem_cons_self _ _) with rfl | hsrc
              · exact Relation.ReflTransGen.refl
              · obtain ⟨p, hp, hn⟩ := hsrc
                exact (hInv.local_reach p hp).tail
                  ⟨hInv.local_valid p hp, hval, hn⟩
            have hInv2 : BfsInv board rows cols bt start vg0
                (rest ++ nbrs q0) (q0 :: vl) (q0 :: vg) (g ++ [q0]) :=
              { group_eq := by
                  rw [List.reverse_append, List.reverse_singleton,
                    List.singleton_append, hInv.group_eq]
                global_eq := by rw [hInv.global_eq, List.cons_append]
                local_nodup := List.nodup_cons.mpr ⟨hq0vl, hInv.local_nodup⟩
                local_valid := by
                  intro x hx
                  rcases List.mem_cons.mp hx with rfl | hx
                  · exact hval
                  · exact hInv.local_valid x hx
                local_reach := by
                  intro x hx
                  rcases List.mem_cons.mp hx with rfl | hx
                  · exact hreach0
                  · exact hInv.local_reach x hx
                queue_src := by
                  intro q hq
                  rcases List.mem_append.mp hq with hq | hq
                  · rcases hInv.queue_src q (List.mem_cons_of_mem _ hq) with
                      h | ⟨p, hp, hn⟩
                    · exact Or.inl h
                    · exact Or.inr ⟨p, List.mem_cons_of_mem _ hp, hn⟩
                  · exact Or.inr ⟨q0, List.mem_cons_self _ _, hq⟩
                frontier := by
                  intro p hp q hq
                  rcases List.mem_cons.mp hp with rfl | hp
                  · exact Or.inl (List.mem_append_right _ hq)
                  · rcases hInv.frontier p hp q hq with h | h | h
                    · rcases List.mem_cons.mp h with rfl | h
                      · exact Or.inr (Or.inl (List.mem_cons_self _ _))
                      · exact Or.inl (List.mem_append_left _ h)
                    · exact Or.inr (Or.inl (List.mem_cons_of_mem _ h))
                    · exact Or.inr (Or.inr h) }
            have hbound : (q0 :: vl).length ≤ rows * cols := by
              refine nodup_inGrid_length_le rows cols (q0 :: vl)
                hInv2.local_nodup ?_
              intro x hx
              exact (hInv2.local_valid x hx).1
            have hmu2 : (rest ++ nbrs q0).length +
                4 * (rows * cols - (q0 :: vl).length) ≤ fuel := by
              rw [List.length_append]
              simp only [List.length_cons] at hbound hmu ⊢
              have hn4 : (nbrs q0).length = 4 := rfl
              omega
            obtain ⟨c1, c2, c3, c4, c5, c6⟩ :=
              ih (rest ++ nbrs q0) (q0 :: vl) (q0 :: vg) (g ++ [q0]) hInv2
                hmu2 gr vg2 hres
            refine ⟨c1, c2, fun x hx => c3 x (List.mem_cons_of_mem _ hx),
              c4, c5, ?_⟩
            intro q hq hvq
            rcases List.mem_cons.mp hq with rfl | hq
            · exact Or.inl (c3 q (List.mem_cons_self _ _))
            · exact c6 q (List.mem_append_left _ hq) hvq

theorem findConnectedGroup_spec (board : Board) (config : GameConfig)
    (bt : Buildings) (start : Pos) (vg0 : List Pos)
    (hstart : bfsValid board config.rows config.cols bt start)
    (hdisj : ∀ x ∈ vg0,
      ¬ bfsReach board config.rows config.cols bt start x) :
    ∀ gr vg2,
      findConnectedGroup board start.1 start.2 bt vg0 config = (gr, vg2) →
      (∀ x, x ∈ gr ↔ bfsReach board config.rows config.cols bt start x) ∧
      gr.Nodup ∧
      (∀ x, x ∈ vg2 ↔ x ∈ gr ∨ x ∈ vg0) := by
  intro gr vg2 hres
  unfold findConnectedGroup at hres
  have hInv : BfsInv board config.rows config.cols bt start vg0
      [start] [] vg0 [] :=
    { group_eq := rfl
      global_eq := rfl
      local_nodup := List.nodup_nil
      local_valid := by intro x hx; cases hx
      local_reach := by intro x hx; cases hx
      queue_src := by
        intro q hq
        rcases List.mem_singleton.mp hq with rfl
        exact Or.inl rfl
      frontier := by intro p hp; cases hp }
  have hmu : ([start] : List Pos).length +
      4 * (config.rows * config.cols - ([] : List Pos).length) ≤
      4 * config.rows * config.cols + 1 := by
    simp only [List.length_singleton, List.length_nil, Nat.sub_zero,
      Nat.mul_assoc]
    omega
  obtain ⟨c1, c2, c3, c4, c5, c6⟩ :=
    findConnectedGroupGo_spec board config.rows config.cols bt start vg0
      (4 * config.rows * config.cols + 1) [start] [] vg0 [] hInv hmu
      gr vg2 hres
  have hstartmem : start ∈ gr := by
    rcases c6 start (List.mem_singleton_self start) hstart with h | h
    · exact h
    · exact absurd Relation.ReflTransGen.refl (hdisj start h)
  refine ⟨?_, c2, ?_⟩
  · intro x
    constructor
    · intro hx
      exact (c4 x hx).2
    · intro hx
      induction hx with
      | refl => exact hstartmem
      | tail h1 step ih =>
        obtain ⟨hvm, hvx, hn⟩ := step
        rcases c5 _ ih _ hn hvx with h | h
        · exact h
        · exact absurd (h1.tail ⟨hvm, hvx, hn⟩) (hdisj _ h)
  · intro x
    rw [c1, List.mem_append, List.mem_reverse]

theorem ite_add_split (c m : Prop) [Decidable c] [Decidable m] (v : Int) :
    (if c then v else 0) =
      (if c ∧ m then v else 0) + (if c ∧ ¬ m then v else 0) := by
  by_cases hc : c <;> by_cases hm : m <;> simp [hc, hm]

theorem sum_indicator_sublist (L S : List Pos) (f : Pos → Int)
    (hLnd : L.Nodup) (hSnd : S.Nodup) (hsub : S ⊆ L) :
    (L.map fun x => if x ∈ S then f x else 0).sum = (S.map f).sum := by
  have hsubf : S.toFinset ⊆ L.toFinset := by
    intro x hx
    rw [List.mem_toFinset] at *
    exact hsub hx
  rw [← List.sum_toFinset _ hLnd, ← List.sum_toFinset _ hSnd]
  calc L.toFinset.sum (fun x => if x ∈ S then f x else 0)
      = L.toFinset.sum (fun x => if x ∈ S.toFinset then f x else 0) :=
        Finset.sum_congr rfl fun x _ =>
          if_congr List.mem_toFinset.symm rfl rfl
    _ = S.toFinset.sum f := by
        rw [Finset.sum_ite_mem, Finset.inter_eq_right.mpr hsubf]

open Classical in
theorem calculateStreetScoreGo_spec (board : Board) (config : GameConfig)
    (targetRow : Int) :
    ∀ (cells vg : List Pos) (total : Int),
      (∀ p ∈ cells, inGrid config.rows config.cols p) →
      (∀ p ∈ vg, groupCell board config.rows config.cols p) →
      (∀ p ∈ vg, ∀ q, sameGroup board config.rows config.cols p q →
        q ∈ vg) →
      (∀ q, groupCell board config.rows config.cols q → q ∉ vg →
        ∃ m ∈ cells, sameGroup board config.rows config.cols q m) →
      calculateStreetScoreGo board config targetRow cells vg total =
        total + ((gridList config.rows config.cols).map fun q =>
          if groupCell board config.rows config.cols q ∧ q ∉ vg ∧
              (∃ r, sameGroup board config.rows config.cols q r ∧
                r.1 = targetRow) then
            getCellPoints q.1 q.2 config
          else 0).sum := by
  intro cells
  induction cells with
  | nil =>
    intro vg total hcells hgc hclosed hcover
    have hzero : ((gridList config.rows config.cols).map fun q =>
        if groupCell board config.rows config.cols q ∧ q ∉ vg ∧
            (∃ r, sameGroup board config.rows config.cols q r ∧
              r.1 = targetRow) then
          getCellPoints q.1 q.2 config
        else 0).sum = 0 := by
      refine List.sum_eq_zero ?_
      intro x hx
      rcases List.mem_map.mp hx with ⟨q, hq, rfl⟩
      refine if_neg ?_
      rintro ⟨hgq, hnq, -⟩
      rcases hcover q hgq hnq with ⟨m, hm, -⟩
      exact absurd hm (List.not_mem_nil m)
    rw [show calculateStreetScoreGo board config targetRow [] vg total =
      total from rfl, hzero, add_zero]
  | cons p cells ih =>
    intro vg total hcells hgc hclosed hcover
    by_cases hvg : p ∈ vg
    · have hstep : calculateStreetScoreGo board config targetRow
          (p :: cells) vg total =
          calculateStreetScoreGo board config targetRow cells vg total := by
        simp only [calculateStreetScoreGo]
        rw [if_pos hvg]
      rw [hstep]
      refine ih vg total (fun x hx => hcells x (List.mem_cons_of_mem _ hx))
        hgc hclosed ?_
      intro q hq hnq
      rcases hcover q hq hnq with ⟨m, hm, hsame⟩
      rcases List.mem_cons.mp hm with rfl | hm
      · exact absurd (hclosed m hvg q (sameGroup_symm board config.rows
          config.cols hsame)) hnq
      · exact ⟨m, hm, hsame⟩
    · cases hc : getCell board p with
      | none =>
        have hstep : calculateStreetScoreGo board config targetRow
            (p :: cells) vg total =
            calculateStreetScoreGo board config targetRow cells vg total := by
          simp only [calculateStreetScoreGo]
          rw [if_neg hvg, hc]
        rw [hstep]
        have hngc : ¬ groupCell board config.rows config.cols p := by
          rintro ⟨-, b, hb, -⟩
          rw [hc] at hb
          cases hb
        refine ih vg total
          (fun x hx => hcells x (List.mem_cons_of_mem _ hx)) hgc hclosed ?_
        intro q hq hnq
        rcases hcover q hq hnq with ⟨m, hm, hsame⟩
        rcases List.mem_cons.mp hm with rfl | hm
        · rcases sameGroup_target board config.rows config.cols hsame with
            rfl | hgp
          · exact absurd hq hngc
          · exact absurd hgp hngc
        · exact ⟨m, hm, hsame⟩
      | some bt =>
        by_cases hsq : bt = Buildings.SQUARE
        · subst hsq
          have hstep : calculateStreetScoreGo board config targetRow
              (p :: cells) vg total =
              calculateStreetScoreGo board config targetRow cells vg
                total := by
            simp only [calculateStreetScoreGo]
            rw [if_neg hvg, hc]
            dsimp only
            rw [if_pos rfl]
          rw [hstep]
          have hngc : ¬ groupCell board config.rows config.cols p := by
            rintro ⟨-, b, hb, hbne⟩
            rw [hc] at hb
            injection hb with hb2
            exact hbne hb2.symm
          refine ih vg total
            (fun x hx => hcells x (List.mem_cons_of_mem _ hx)) hgc hclosed ?_
          intro q hq hnq
          rcases hcover q hq hnq with ⟨m, hm, hsame⟩
          rcases List.mem_cons.mp hm with rfl | hm
          · rcases sameGroup_target board config.rows config.cols hsame with
              rfl | hgp
            · exact absurd hq hngc
            · exact absurd hgp hngc
          · exact ⟨m, hm, hsame⟩
        · -- flood-fill case
          have hgp : inGrid config.rows config.cols p :=
            hcells p (List.mem_cons_self _ _)
          have hgc0 : groupCell board config.rows config.cols p :=
            ⟨hgp, bt, hc, hsq⟩
          have hval : bfsValid board config.rows config.cols bt p := ⟨hgp, hc⟩
          have hdisj : ∀ x ∈ vg,
              ¬ bfsReach board config.rows config.cols bt p x := by
            intro x hx hr
            have hsg := (bfsReach_iff_sameGroup board config.rows config.cols
              bt hsq p hval x).mp hr
            exact hvg (hclosed x hx p
              (sameGroup_symm board config.rows config.cols hsg))
          rcases hrs : findConnectedGroup board p.1 p.2 bt vg config with
            ⟨gr, vg2⟩
          obtain ⟨m1, m2, m3⟩ := findConnectedGroup_spec board config bt p vg
            hval hdisj gr vg2 hrs
          have hmemgr : ∀ x, x ∈ gr ↔
              sameGroup board config.rows config.cols p x := by
            intro x
            rw [m1 x]
            exact bfsReach_iff_sameGroup board config.rows config.cols bt hsq
              p hval x
          have hgrgc : ∀ x ∈ gr, groupCell board config.rows config.cols x := by
            intro x hx
            rcases sameGroup_target board config.rows config.cols
              ((hmemgr x).mp hx) with rfl | h
            · exact hgc0
            · exact h
          have hgrvg : ∀ x ∈ gr, x ∉ vg := by
            intro x hx hxvg
            exact hdisj x hxvg ((m1 x).mp hx)
          have hgrsub : gr ⊆ gridList config.rows config.cols := by
            intro x hx
            exact (mem_gridList config.rows config.cols x).mpr (hgrgc x hx).1
          -- the step equation for the flood branch
          have hstep : calculateStreetScoreGo board config targetRow
              (p :: cells) vg total =
              (if gr.any fun q => decide (q.1 = targetRow) then
                calculateStreetScoreGo board config targetRow cells vg2
                  (total + (gr.map fun q =>
                    getCellPoints q.1 q.2 config).sum)
              else
                calculateStreetScoreGo board config targetRow cells vg2
                  total) := by
            simp only [calculateStreetScoreGo]
            rw [if_neg hvg, hc]
            dsimp only
            rw [if_neg hsq, hrs]
          -- invariants for the recursive call
          have hgc2 : ∀ x ∈ vg2, groupCell board config.rows config.cols x := by
            intro x hx
            rcases (m3 x).mp hx with h | h
            · exact hgrgc x h
            · exact hgc x h
          have hclosed2 : ∀ x ∈ vg2, ∀ y,
              sameGroup board config.rows config.cols x y → y ∈ vg2 := by
            intro x hx y hxy
            rcases (m3 x).mp hx with h | h
            · refine (m3 y).mpr (Or.inl ?_)
              exact (hmemgr y).mpr (((hmemgr x).mp h).trans hxy)
            · exact (m3 y).mpr (Or.inr (hclosed x h y hxy))
          have hcover2 : ∀ q, groupCell board config.rows config.cols q →
              q ∉ vg2 → ∃ m ∈ cells,
                sameGroup board config.rows config.cols q m := by
            intro q hq hnq
            have hnqvg : q ∉ vg := fun h => hnq ((m3 q).mpr (Or.inr h))
            have hnqgr : q ∉ gr := fun h => hnq ((m3 q).mpr (Or.inl h))
            rcases hcover q hq hnqvg with ⟨m, hm, hsame⟩
            rcases List.mem_cons.mp hm with rfl | hm
            · exact absurd ((hmemgr q).mpr
                (sameGroup_symm board config.rows config.cols hsame)) hnqgr
            · exact ⟨m, hm, hsame⟩
          have hcells2 : ∀ x ∈ cells, inGrid config.rows config.cols x :=
            fun x hx => hcells x (List.mem_cons_of_mem _ hx)
          have hih := fun t : Int => ih vg2 t hcells2 hgc2 hclosed2 hcover2
          -- membership in vg2 in terms of vg and gr
          have hnotvg2 : ∀ q : Pos, (q ∉ vg2) ↔ (q ∉ gr ∧ q ∉ vg) := by
            intro q
            rw [m3 q]
            push_neg
            exact Iff.rfl
          by_cases hQ : ∃ r, sameGroup board config.rows config.cols p r ∧
              r.1 = targetRow
          · -- the group touches the target street
            have hany : (gr.any fun q => decide (q.1 = targetRow)) = true := by
              rw [List.any_eq_true]
              obtain ⟨r, hpr, hrt⟩ := hQ
              exact ⟨r, (hmemgr r).mpr hpr, decide_eq_true hrt⟩
            rw [hstep, if_pos hany,
              hih (total + (gr.map fun q => getCellPoints q.1 q.2 config).sum)]
            -- split the target sum over membership in gr
            have hsplit1 : ((gridList config.rows config.cols).map fun q =>
                if groupCell board config.rows config.cols q ∧ q ∉ vg ∧
                    (∃ r, sameGroup board config.rows config.cols q r ∧
                      r.1 = targetRow) then
                  getCellPoints q.1 q.2 config
                else 0).sum =
                ((gridList config.rows config.cols).map fun q =>
                  (if (groupCell board config.rows config.cols q ∧ q ∉ vg ∧
                      (∃ r, sameGroup board config.rows config.cols q r ∧
                        r.1 = targetRow)) ∧ q ∈ gr then
                    getCellPoints q.1 q.2 config
                  else 0) +
                  (if (groupCell board config.rows config.cols q ∧ q ∉ vg ∧
                      (∃ r, sameGroup board config.rows config.cols q r ∧
                        r.1 = targetRow)) ∧ q ∉ gr then
                    getCellPoints q.1 q.2 config
                  else 0)).sum := by
              refine congrArg List.sum (List.map_congr_left ?_)
              intro q hq
              exact ite_add_split _ _ _
            have hpiece1 : ((gridList config.rows config.cols).map fun q =>
                if (groupCell board config.rows config.cols q ∧ q ∉ vg ∧
                    (∃ r, sameGroup board config.rows config.cols q r ∧
                      r.1 = targetRow)) ∧ q ∈ gr then
                  getCellPoints q.1 q.2 config
                else 0).sum =
                (gr.map fun q => getCellPoints q.1 q.2 config).sum := by
              refine Eq.trans (congrArg List.sum (List.map_congr_left ?_))
                (sum_indicator_sublist (gridList config.rows config.cols) gr
                  (fun q => getCellPoints q.1 q.2 config)
                  (gridList_nodup config.rows config.cols) m2 hgrsub)
              intro q hq
              refine if_congr ?_ rfl rfl
              constructor
              · rintro ⟨-, h⟩
                exact h
              · intro hqgr
                refine ⟨⟨hgrgc q hqgr, hgrvg q hqgr, ?_⟩, hqgr⟩
                obtain ⟨r, hpr, hrt⟩ := hQ
                exact ⟨r, (sameGroup_symm board config.rows config.cols
                  ((hmemgr q).mp hqgr)).trans hpr, hrt⟩
            have hpiece2 : ((gridList config.rows config.cols).map fun q =>
                if (groupCell board config.rows config.cols q ∧ q ∉ vg ∧
                    (∃ r, sameGroup board config.rows config.cols q r ∧
                      r.1 = targetRow)) ∧ q ∉ gr then
                  getCellPoints q.1 q.2 config
                else 0).sum =
                ((gridList config.rows config.cols).map fun q =>
                  if groupCell board config.rows config.cols q ∧ q ∉ vg2 ∧
                      (∃ r, sameGroup board config.rows config.cols q r ∧
                        r.1 = targetRow) then
                    getCellPoints q.1 q.2 config
                  else 0).sum := by
              refine congrArg List.sum (List.map_congr_left ?_)
              intro q hq
              refine if_congr ?_ rfl rfl
              rw [hnotvg2 q]
              constructor
              · rintro ⟨⟨hgq, hnvg, hqual⟩, hngr⟩
                exact ⟨hgq, ⟨hngr, hnvg⟩, hqual⟩
              · rintro ⟨hgq, ⟨hngr, hnvg⟩, hqual⟩
                exact ⟨⟨hgq, hnvg, hqual⟩, hngr⟩
            rw [hsplit1, List.sum_map_add, hpiece1, hpiece2]
            ring
          · -- the group does not touch the target street
            have hany : (gr.any fun q => decide (q.1 = targetRow)) = false := by
              rw [← Bool.not_eq_true, List.any_eq_true]
              rintro ⟨q, hqgr, hdec⟩
              refine hQ ⟨q, (hmemgr q).mp hqgr, of_decide_eq_true hdec⟩
            rw [hstep, hany, if_neg (by simp), hih total]
            have hpiece : ((gridList config.rows config.cols).map fun q =>
                if groupCell board config.rows config.cols q ∧ q ∉ vg2 ∧
                    (∃ r, sameGroup board config.rows config.cols q r ∧
                      r.1 = targetRow) then
                  getCellPoints q.1 q.2 config
                else 0).sum =
                ((gridList config.rows config.cols).map fun q =>
                  if groupCell board config.rows config.cols q ∧ q ∉ vg ∧
                      (∃ r, sameGroup board config.rows config.cols q r ∧
                        r.1 = targetRow) then
                    getCellPoints q.1 q.2 config
                  else 0).sum := by
              refine congrArg List.sum (List.map_congr_left ?_)
              intro q hq
              refine if_congr ?_ rfl rfl
              rw [hnotvg2 q]
              constructor
              · rintro ⟨hgq, ⟨hngr, hnvg⟩, hqual⟩
                exact ⟨hgq, hnvg, hqual⟩
              · rintro ⟨hgq, hnvg, hqual⟩
                have hngr : q ∉ gr := by
                  intro hqgr
                  obtain ⟨r, hqr, hrt⟩ := hqual
                  exact hQ ⟨r, ((hmemgr q).mp hqgr).trans hqr, hrt⟩
                exact ⟨hgq, ⟨hngr, hnvg⟩, hqual⟩
            rw [hpiece]

open Classical in
/-- C1: for every board, configuration, dice sum and optional player-chosen
row, `calculateStreetScore` returns exactly the sum, over every maximal
4-directionally-connected group of equal non-SQUARE buildings containing
at least one cell on the resolved target row, of the point-matrix values
of every cell in that group (equivalently, each cell of the grid
contributes its point value exactly once when its maximal group touches
the target row, and contributes nothing otherwise); empty and SQUARE
cells belong to no group and act as barriers, and an unresolved target
row scores 0. -/
theorem calculateStreetScore_eq_spec (diceSum : Int) (board : Board)
    (config : GameConfig) (selectedRow : Option Int) :
    calculateStreetScore diceSum board config selectedRow =
      streetScoreSpec board config
        (getTargetRowFromDiceSum diceSum config selectedRow) := by
  unfold calculateStreetScore streetScoreSpec
  dsimp only
  by_cases h : getTargetRowFromDiceSum diceSum config selectedRow = -1
  · rw [if_pos h]
    symm
    refine List.sum_eq_zero ?_
    intro x hx
    rcases List.mem_map.mp hx with ⟨q, hq, rfl⟩
    refine if_neg ?_
    rintro ⟨hgq, r, hqr, hrt⟩
    have h0 : 0 ≤ r.1 := by
      rcases sameGroup_target board config.rows config.cols hqr with rfl | hgr
      · exact hgq.1.1
      · exact hgr.1.1
    rw [h] at hrt
    omega
  · rw [if_neg h]
    rw [calculateStreetScoreGo_spec board config
      (getTargetRowFromDiceSum diceSum config selectedRow)
      (gridList config.rows config.cols) [] 0
      (fun p hp => (mem_gridList config.rows config.cols p).mp hp)
      (fun p hp => absurd hp (List.not_mem_nil p))
      (fun p hp => absurd hp (List.not_mem_nil p))
      (fun q hgq _ => ⟨q, (mem_gridList config.rows config.cols q).mpr hgq.1,
        Relation.ReflTransGen.refl⟩), zero_add]
    refine congrArg List.sum (List.map_congr_left ?_)
    intro q hq
    refine if_congr ?_ rfl rfl
    constructor
    · rintro ⟨hgq, -, hqual⟩
      exact ⟨hgq, hqual⟩
    · rintro ⟨hgq, hqual⟩
      exact ⟨hgq, List.not_mem_nil q, hqual⟩
